/-
  Verification development for the time-travel simulation
  (src/time_travel.py and src/main.py).

  The program is embedded in two layers.
  * Kinematics, over ℝ: the time-dilation field `get_time_factor`, the
    global/local clock update rules, path interpolation (`get_pos`, generic
    over a linear ordered field) and the deterministic path bake
    (`ensure_path`), plus the per-frame movement-recording step of the
    main loop.
  * Main-loop bookkeeping, over an arbitrary linear ordered field
    (instantiated at ℚ for concrete evaluation): commands, the permanent
    command log, the branch-evaluation block, the ghost retirement loop
    and the two per-frame ghost reconciliation passes.  The baked
    positional samples of ghost bullets and the ghost positions feed only
    rendering in the source, never a branch/retire/reconcile condition, so
    the bookkeeping entity records carry the command payload (times, ids,
    lifetimes) and not the baked position samples (those are modelled by
    `ensure_path`/`get_pos` in the kinematics layer).
-/
import Mathlib

/-! ## Movement paths (src/time_travel.py, class MovementComponent) -/

/-- pygame `Vector2.lerp`: componentwise `a + (b - a) * t`. -/
def lerp2 {α : Type} [LinearOrderedField α] (a b : α × α) (t : α) : α × α :=
  (a.1 + (b.1 - a.1) * t, a.2 + (b.2 - a.2) * t)

/-- The scan of `MovementComponent.get_pos` once the first sample has been
taken as `prev`: walk the remaining samples, interpolating on the first pair
whose right end is at or past the query time, falling back to the last
sample's position when the scan runs out. -/
def getPosGo {α : Type} [LinearOrderedField α] (prev : α × (α × α)) :
    List (α × (α × α)) → α → α × α
  | [], _ => prev.2
  | nx :: rest, q =>
    if q ≤ nx.1 then
      lerp2 prev.2 nx.2
        (max 0 (min 1 (if prev.1 < nx.1 then (q - prev.1) / (nx.1 - prev.1) else 0)))
    else getPosGo nx rest q

/-- `MovementComponent.get_pos`: `None` on an empty path, otherwise the
clamped linear interpolation over the sample sequence. -/
def get_pos {α : Type} [LinearOrderedField α] :
    List (α × (α × α)) → α → Option (α × α)
  | [], _ => none
  | x :: rest, q => some (getPosGo x rest q)

/-- `MovementComponent.add_step`: append a sample. -/
def add_step {α : Type} [LinearOrderedField α] (path : List (α × (α × α)))
    (t : α) (p : α × α) : List (α × (α × α)) :=
  path ++ [(t, p)]

/-! ## Time-dilation field and clocks (src/time_travel.py) -/

/-- pygame `Vector2.length`. -/
noncomputable def vlen (v : ℝ × ℝ) : ℝ := Real.sqrt (v.1 ^ 2 + v.2 ^ 2)

/-- `get_time_factor(pos, time_center, max_radius, exponent=2.3)`:
`(1 - min(dist / max_radius, 1)) ** exponent`, a real power. -/
noncomputable def get_time_factor (pos time_center : ℝ × ℝ)
    (max_radius exponent : ℝ) : ℝ :=
  (1 - min (vlen (pos.1 - time_center.1, pos.2 - time_center.2) / max_radius) 1) ^ exponent

/-- `GameWorld.update`: global clock rule, floor-clamped at 0 while
rewinding. -/
noncomputable def updateGlobalTime (global_time dt : ℝ) (rewinding : Bool) : ℝ :=
  if rewinding then max 0 (global_time - dt) else global_time + dt

/-- `TimeEntity.update` local clock rule: the dilation factor is evaluated at
the entity's position with centre `(400, 300)`, radius `500` and the default
exponent `2.3`, and the clock is clamped at 0. -/
noncomputable def updateLocalTime (local_time dt : ℝ) (pos : ℝ × ℝ)
    (rewinding : Bool) : ℝ :=
  max (local_time + (if rewinding then -dt else dt) *
    get_time_factor pos (400, 300) 500 (23 / 10)) 0

/-- `GhostBullet.update` / `GhostBullet._update_pos`: before `spawn_time` the
clock is left unchanged, otherwise `local_time = max(0, global_time -
spawn_time)`. -/
noncomputable def ghostBulletLocalTime (local_time spawn_time global_time : ℝ) : ℝ :=
  if global_time < spawn_time then local_time else max 0 (global_time - spawn_time)

/-- `GhostPlayer.update`: ghost players follow the global clock directly. -/
def ghostPlayerLocalTime (global_time : ℝ) : ℝ := global_time

/-- One iteration of the `ensure_path` bake: `t += step_size`, advance the
position by `velocity * step_size * factor(last_pos)`, append the sample.
`fuel` bounds the iteration count of the Python `while t < until_time` loop;
the claims below hold for every fuel value, in particular for the fuel at
which the recursion agrees with the Python loop. -/
noncomputable def ensurePathGo (until_time step_size : ℝ) (velocity : ℝ × ℝ) :
    ℕ → ℝ → ℝ × ℝ → List (ℝ × (ℝ × ℝ)) → List (ℝ × (ℝ × ℝ))
  | 0, _, _, acc => acc
  | fuel + 1, t, last_pos, acc =>
    if t < until_time then
      let f := get_time_factor last_pos (400, 300) 500 (23 / 10)
      let p := (last_pos.1 + velocity.1 * step_size * f,
                last_pos.2 + velocity.2 * step_size * f)
      ensurePathGo until_time step_size velocity fuel (t + step_size) p
        (acc ++ [(t + step_size, p)])
    else acc

/-- `MovementComponent.ensure_path`: bake deterministic samples forward from
the last known sample (or `(0, start_pos)` when the path is empty). -/
noncomputable def ensure_path (path : List (ℝ × (ℝ × ℝ)))
    (until_time step_size : ℝ) (start_pos velocity : ℝ × ℝ) (fuel : ℕ) :
    List (ℝ × (ℝ × ℝ)) :=
  let last_time := ((path.getLast?).map Prod.fst).getD 0
  let last_pos := ((path.getLast?).map Prod.snd).getD start_pos
  ensurePathGo until_time step_size velocity fuel last_time last_pos path

/-- Python `x or y` applied to `get_pos(...) or self.pos`: both `None` and
the zero vector are falsy in Python, so either falls back to `pos`. -/
def pyOr {α : Type} [LinearOrderedField α] (v : Option (α × α)) (dflt : α × α) :
    α × α :=
  match v with
  | none => dflt
  | some p => if p = (0, 0) then dflt else p

/-- One frame of the main loop restricted to the player's live movement path:
the movement-recording block of main.py (normalize the WASD intent, speed
170, `step_size = dt`, `add_step` at `local_time + dt`) followed by
`Player.update` (position looked up from the path at the old local time, then
the `TimeEntity` clock rule).  The recording block is not guarded by the
rewinding flag in the source.  Returns the new path, local time and
position. -/
noncomputable def recordFrame (path : List (ℝ × (ℝ × ℝ))) (local_time : ℝ)
    (pos : ℝ × ℝ) (dt : ℝ) (move_dir : ℝ × ℝ) (rewinding : Bool) :
    List (ℝ × (ℝ × ℝ)) × ℝ × (ℝ × ℝ) :=
  let lensq := move_dir.1 ^ 2 + move_dir.2 ^ 2
  let path' :=
    if 0 < lensq then
      let n := Real.sqrt lensq
      let velocity := (move_dir.1 / n * 170, move_dir.2 / n * 170)
      let curr := pyOr (get_pos path local_time) pos
      add_step path (local_time + dt)
        (curr.1 + velocity.1 * dt, curr.2 + velocity.2 * dt)
    else path
  let pos' := (get_pos path' local_time).getD pos
  (path', updateLocalTime local_time dt pos' rewinding, pos')

/-- The two-frame rewinding scenario used against the path-ordering claim:
the player starts at the field centre with local time 1 and a freshly seeded
path, holds a movement key during two consecutive rewinding frames of
`dt = 1/2`. -/
noncomputable def c9frame1 : List (ℝ × (ℝ × ℝ)) × ℝ × (ℝ × ℝ) :=
  recordFrame [(0, ((400 : ℝ), 300))] 1 (400, 300) (1 / 2) (1, 0) true

/-- The second rewinding frame of the scenario. -/
noncomputable def c9frame2 : List (ℝ × (ℝ × ℝ)) × ℝ × (ℝ × ℝ) :=
  recordFrame c9frame1.1 c9frame1.2.1 c9frame1.2.2 (1 / 2) (1, 0) true

/-! ## Main-loop bookkeeping model (src/main.py)

State over an arbitrary linear ordered field `α` (the Python floats);
theorems are stated generically and concrete runs are evaluated at `ℚ`. -/

/-- The closed set of entity variants of main.py.  `GhostBullet` records the
fields read by the retirement/reconciliation logic: spawn time, the command
payload position and velocity, `max_lifetime`, `timeline_id`, and `cmd_ref`
(`some cid` exactly for reconciliation-spawned ghosts; branch-commit ghosts
get no `cmd_ref` attribute).  `GhostPlayer` records its movement path (whose
last sample time is its retirement bound) and `timeline_id`. -/
inductive EntityB (α : Type) where
  | player : EntityB α
  | timer : EntityB α
  | bullet : (α × α) → (α × α) → ℤ → α → EntityB α
  | ghostBullet : α → (α × α) → (α × α) → α → ℕ → Option ℕ → EntityB α
  | ghostPlayer : List (α × (α × α)) → ℕ → EntityB α
  deriving DecidableEq

/-- The tag distinguishing the two command families of main.py: commands with
`forward_fn.__name__ == "shoot_bullet"` and commands with
`type == "player_move"`. -/
inductive CmdType where
  | shoot
  | player_move
  deriving DecidableEq

/-- The `cmd.data` dictionary: position, velocity, bullet id and the optional
`"max_lifetime"` key (`none` when absent, read via
`data.get("max_lifetime", 2.5)` in the source). -/
structure CmdData (α : Type) where
  pos : α × α
  velocity : α × α
  bullet_id : ℤ
  max_lifetime : Option α
  deriving DecidableEq

/-- A command of the permanent log.  `cid` models Python object identity
(the source compares and removes commands by identity); `ghosted_timelines`
is the contents of the Python set (claims below are stated membership-wise,
never order-wise). -/
structure CmdB (α : Type) where
  cid : ℕ
  ctype : CmdType
  data : CmdData α
  scheduled_time : α
  executed : Bool
  origin_timeline : ℕ
  ghosted_timelines : List ℕ
  deriving DecidableEq

/-- Set insertion for `ghosted_timelines`. -/
def insertTl (s : List ℕ) (t : ℕ) : List ℕ := if t ∈ s then s else s ++ [t]

/-- `defaultdict(int)` lookup: 0 when the key is absent. -/
def dget : List (ℕ × ℤ) → ℕ → ℤ
  | [], _ => 0
  | p :: rest, k => if p.1 = k then p.2 else dget rest k

/-- Dictionary assignment (keys are unique; in-place update preserving
insertion order, appending a fresh key). -/
def dset : List (ℕ × ℤ) → ℕ → ℤ → List (ℕ × ℤ)
  | [], k, v => [(k, v)]
  | p :: rest, k, v => if p.1 = k then (k, v) :: rest else p :: dset rest k v

/-- `d[k] += n` on a `defaultdict(int)` (a read inserts the default). -/
def dbump (d : List (ℕ × ℤ)) (k : ℕ) (n : ℤ) : List (ℕ × ℤ) :=
  dset d k (dget d k + n)

/-- `del d[k]` and `d.pop(k, None)`. -/
def ddel (d : List (ℕ × ℤ)) (k : ℕ) : List (ℕ × ℤ) :=
  d.filter (fun p => p.1 ≠ k)

/-- `MAX_REWINDS` of main.py. -/
def MAX_REWINDS : ℤ := 3

/-- The mutable state read and written by the branch-evaluation block, the
ghost retirement loop and the two reconciliation passes: the `GameWorld`
fields, the module-level `rewind_charges` / `active_timelines`, and the
player fields those blocks touch. -/
structure BState (α : Type) where
  entities : List (EntityB α)
  global_commands : List ℕ
  permanent_command_log : List (CmdB α)
  current_timeline_id : ℕ
  next_timeline_id : ℕ
  rewind_charges : ℤ
  active_timelines : List (ℕ × ℤ)
  global_time : α
  player_local_time : α
  player_pos : α × α
  player_path : List (α × (α × α))
  player_command_queue : List (CmdB α)
  deriving DecidableEq

/-- The per-command test of `prune_future_bullet_spawns`: a shoot command of
the overwritten timeline, scheduled strictly after the rewound-to time, not
yet ghosted into the candidate. -/
def bulletGhostCond {α : Type} [LinearOrderedField α] (time_point : α)
    (new_tl prev_tl : ℕ) (c : CmdB α) : Prop :=
  c.ctype = CmdType.shoot ∧ c.origin_timeline = prev_tl ∧
    time_point < c.scheduled_time ∧ new_tl ∉ c.ghosted_timelines

instance {α : Type} [LinearOrderedField α] (time_point : α) (new_tl prev_tl : ℕ)
    (c : CmdB α) : Decidable (bulletGhostCond time_point new_tl prev_tl c) :=
  inferInstanceAs (Decidable (_ ∧ _ ∧ _ ∧ _))

/-- The `GhostBullet` materialized at branch-commit time (main.py line 77):
seeded from the command payload, lifetime `data.get("max_lifetime", 2.5)`,
registered under the candidate id, with no `cmd_ref` attribute. -/
def mkPruneGhost {α : Type} [LinearOrderedField α] (c : CmdB α) (new_tl : ℕ) :
    EntityB α :=
  EntityB.ghostBullet c.scheduled_time c.data.pos c.data.velocity
    (c.data.max_lifetime.getD (5 / 2)) new_tl none

/-- The walk of `prune_future_bullet_spawns` over the permanent log, carrying
the entity list, the active `global_commands` schedule (ids), the
`active_timelines` counters and the `ghosts_created` flag.  A qualifying
command is marked ghosted for the candidate, a ghost is appended, the
candidate's counter is bumped and the command leaves the active schedule. -/
def pruneBulletsGo {α : Type} [LinearOrderedField α] (time_point : α)
    (new_tl prev_tl : ℕ) :
    List (CmdB α) → List (EntityB α) → List ℕ → List (ℕ × ℤ) → Bool →
      List (CmdB α) × List (EntityB α) × List ℕ × List (ℕ × ℤ) × Bool
  | [], es, gc, act, flag => ([], es, gc, act, flag)
  | c :: rest, es, gc, act, flag =>
    if bulletGhostCond time_point new_tl prev_tl c then
      let out := pruneBulletsGo time_point new_tl prev_tl rest
        (es ++ [mkPruneGhost c new_tl])
        (if c.cid ∈ gc then gc.erase c.cid else gc)
        (dbump act new_tl 1) true
      ({ c with ghosted_timelines := insertTl c.ghosted_timelines new_tl } :: out.1,
        out.2)
    else
      let out := pruneBulletsGo time_point new_tl prev_tl rest es gc act flag
      (c :: out.1, out.2)

/-- `prune_future_bullet_spawns(world, time_point, new_timeline_id,
just_overwritten_timeline_id)` (main.py lines 61-84); returns the updated
state and `ghosts_created`. -/
def prune_future_bullet_spawns {α : Type} [LinearOrderedField α] (s : BState α)
    (time_point : α) (new_tl prev_tl : ℕ) : BState α × Bool :=
  let out := pruneBulletsGo time_point new_tl prev_tl s.permanent_command_log
    s.entities s.global_commands s.active_timelines false
  ({ s with
      permanent_command_log := out.1
      entities := out.2.1
      global_commands := out.2.2.1
      active_timelines := out.2.2.2.1 },
    out.2.2.2.2)

/-- The per-command test of `prune_future_player_moves`. -/
def moveGhostCond {α : Type} [LinearOrderedField α] (time_point : α)
    (new_tl prev_tl : ℕ) (c : CmdB α) : Prop :=
  c.ctype = CmdType.player_move ∧ c.origin_timeline = prev_tl ∧
    time_point < c.scheduled_time ∧ new_tl ∉ c.ghosted_timelines

instance {α : Type} [LinearOrderedField α] (time_point : α) (new_tl prev_tl : ℕ)
    (c : CmdB α) : Decidable (moveGhostCond time_point new_tl prev_tl c) :=
  inferInstanceAs (Decidable (_ ∧ _ ∧ _ ∧ _))

/-- The walk of `prune_future_player_moves` over the permanent log: mark
qualifying move commands ghosted and collect their `(scheduled_time, pos)`
samples in log order. -/
def pruneMovesGo {α : Type} [LinearOrderedField α] (time_point : α)
    (new_tl prev_tl : ℕ) :
    List (CmdB α) → List (CmdB α) × List (α × (α × α))
  | [] => ([], [])
  | c :: rest =>
    let out := pruneMovesGo time_point new_tl prev_tl rest
    if moveGhostCond time_point new_tl prev_tl c then
      ({ c with ghosted_timelines := insertTl c.ghosted_timelines new_tl } :: out.1,
        (c.scheduled_time, c.data.pos) :: out.2)
    else (c :: out.1, out.2)

/-- `prune_future_player_moves` (main.py lines 150-169): one path-ghost is
materialized from the collected samples when at least one command
qualified. -/
def prune_future_player_moves {α : Type} [LinearOrderedField α] (s : BState α)
    (time_point : α) (new_tl prev_tl : ℕ) : BState α × Bool :=
  let out := pruneMovesGo time_point new_tl prev_tl s.permanent_command_log
  if out.2 = [] then ({ s with permanent_command_log := out.1 }, false)
  else
    ({ s with
        permanent_command_log := out.1
        entities := s.entities ++ [EntityB.ghostPlayer out.2 new_tl]
        active_timelines := dbump s.active_timelines new_tl 1 }, true)

/-- The body of the branch-evaluation block (main.py lines 254-302, after its
trigger has fired): run both prune passes against the candidate id
`next_timeline_id`; if any ghost was created, commit (adopt the candidate,
advance the counter, spend a charge) and prune the live actor's future
(defensive move-command dedup in the permanent log, truncation of the live
queue and movement path, re-seeding an emptied path); otherwise discard the
candidate's bookkeeping. -/
def branchEval {α : Type} [LinearOrderedField α] (s : BState α) : BState α :=
  let prev := s.current_timeline_id
  let temp := s.next_timeline_id
  let r1 := prune_future_bullet_spawns s s.player_local_time temp prev
  let r2 := prune_future_player_moves r1.1 s.player_local_time temp prev
  let s2 := r2.1
  if r1.2 || r2.2 then
    let s3 := { s2 with
      current_timeline_id := temp
      next_timeline_id := s2.next_timeline_id + 1
      rewind_charges := s2.rewind_charges - 1 }
    let s4 := { s3 with
      permanent_command_log := s3.permanent_command_log.filter (fun c =>
        ¬(c.ctype = CmdType.player_move ∧
          c.origin_timeline = s3.current_timeline_id ∧
          s.player_local_time < c.scheduled_time))
      player_command_queue := s3.player_command_queue.filter
        (fun c => c.scheduled_time ≤ s.player_local_time)
      player_path := s3.player_path.filter
        (fun st => st.1 ≤ s.player_local_time) }
    if s4.player_path = [] then
      { s4 with player_path := [(s.player_local_time, s.player_pos)] }
    else s4
  else
    { s2 with active_timelines := ddel s2.active_timelines temp }

/-- The branch trigger (main.py line 254) guarding the block: the actor was
rewinding last frame, is not rewinding now, and a charge is available. -/
def branchBlock {α : Type} [LinearOrderedField α] (s : BState α)
    (was_rewinding rewinding : Bool) : BState α :=
  if was_rewinding = true ∧ rewinding = false ∧ 0 < s.rewind_charges then
    branchEval s
  else s

/-- Whether the branch evaluation would create at least one ghost from the
candidate `next_timeline_id`: some permanent-log command passes one of the
two prune tests. -/
def ghostsWouldBeCreated {α : Type} [LinearOrderedField α] (s : BState α) : Prop :=
  (∃ c ∈ s.permanent_command_log,
      bulletGhostCond s.player_local_time s.next_timeline_id
        s.current_timeline_id c) ∨
    (∃ c ∈ s.permanent_command_log,
      moveGhostCond s.player_local_time s.next_timeline_id
        s.current_timeline_id c)

instance {α : Type} [LinearOrderedField α] (s : BState α) :
    Decidable (ghostsWouldBeCreated s) :=
  inferInstanceAs (Decidable (_ ∨ _))

/-- The `end_time` computed by the retirement loop (main.py lines 309-314):
`spawn_time + max_lifetime` for a ghost bullet, the last path sample's time
for a ghost player, `None` otherwise. -/
def ghostEndTime {α : Type} [LinearOrderedField α] : EntityB α → Option α
  | EntityB.ghostBullet spawn _ _ ml _ _ => some (spawn + ml)
  | EntityB.ghostPlayer path _ => (path.getLast?).map Prod.fst
  | _ => none

/-- `getattr(entity, "timeline_id", None)`. -/
def ghostTid {α : Type} : EntityB α → Option ℕ
  | EntityB.ghostBullet _ _ _ _ t _ => some t
  | EntityB.ghostPlayer _ t => some t
  | _ => none

/-- The shared tail of a retirement step, for a ghost with window end `et`
and timeline id `tid` (ghost entities always carry a `timeline_id`, so the
`getattr(..., None)` default never fires for them): if the window has
closed, remove the ghost, decrement its timeline's counter, and when the
counter is exactly zero delete the bookkeeping entry and refund one rewind
charge clamped at `MAX_REWINDS`. -/
def retireAt {α : Type} [LinearOrderedField α] (s : BState α)
    (e : EntityB α) (et : α) (tid : ℕ) : BState α :=
  if et < s.global_time then
    if dget (dbump s.active_timelines tid (-1)) tid = 0 then
      { s with
          entities := s.entities.erase e
          active_timelines := ddel (dbump s.active_timelines tid (-1)) tid
          rewind_charges := min (s.rewind_charges + 1) MAX_REWINDS }
    else
      { s with
          entities := s.entities.erase e
          active_timelines := dbump s.active_timelines tid (-1) }
  else s

/-- Retire one ghost whose replay window has closed (main.py lines 307-322):
`end_time` is `spawn + max_lifetime` for a ghost bullet, the last path
sample's time for a ghost player (no retirement when the path is empty),
and `None` (no retirement) for every non-ghost entity. -/
def retireGhost {α : Type} [LinearOrderedField α] (s : BState α)
    (e : EntityB α) : BState α :=
  match e with
  | EntityB.ghostBullet spawn _ _ ml tid _ => retireAt s e (spawn + ml) tid
  | EntityB.ghostPlayer path tid =>
    match path.getLast? with
    | some lastStep => retireAt s e lastStep.1 tid
    | none => s
  | _ => s

/-- The retirement loop: `for entity in list(world.entities)` — the snapshot
taken at entry is walked while the live list is edited. -/
def retirementLoop {α : Type} [LinearOrderedField α] (s : BState α) : BState α :=
  s.entities.foldl retireGhost s

/-- Stable insertion of a sample into a time-sorted list (the model of
`path.sort()`; Python's sort is stable, and exact time ties between distinct
move samples would make Python compare the `Vector2` payloads and raise, so
only the time key is modelled). -/
def insertByTime {α : Type} [LinearOrderedField α] (x : α × (α × α)) :
    List (α × (α × α)) → List (α × (α × α))
  | [] => [x]
  | y :: ys => if y.1 < x.1 then y :: insertByTime x ys else x :: y :: ys

/-- `path.sort()` by sample time. -/
def sortByTime {α : Type} [LinearOrderedField α] (l : List (α × (α × α))) :
    List (α × (α × α)) :=
  l.foldr insertByTime []

/-- The ghosted move-path of a timeline id: the `(scheduled_time, pos)` pairs
of every `player_move` command ghosted into it, sorted by time (main.py
lines 326-334). -/
def ghostMovePath {α : Type} [LinearOrderedField α] (log : List (CmdB α))
    (tid : ℕ) : List (α × (α × α)) :=
  sortByTime ((log.filter (fun c =>
    c.ctype = CmdType.player_move ∧ tid ∈ c.ghosted_timelines)).map
      (fun c => (c.scheduled_time, c.data.pos)))

/-- `isinstance(e, GhostPlayer) and e.timeline_id == tid`. -/
def isGhostPlayerTid {α : Type} (tid : ℕ) : EntityB α → Bool
  | EntityB.ghostPlayer _ t => t == tid
  | _ => false

/-- Reconcile the path-ghost of one timeline id (main.py lines 324-351):
inside the window `[start, end)` spawn one ghost if none with this id exists;
outside it remove every ghost with this id. -/
def reconcilePlayerTl {α : Type} [LinearOrderedField α] (s : BState α)
    (tid : ℕ) : BState α :=
  let path := ghostMovePath s.permanent_command_log tid
  match path.head?, path.getLast? with
  | some st, some en =>
    if st.1 ≤ s.global_time ∧ s.global_time < en.1 then
      if s.entities.any (isGhostPlayerTid tid) then s
      else { s with entities := s.entities ++ [EntityB.ghostPlayer path tid] }
    else
      { s with entities := s.entities.filter (fun e => ¬ isGhostPlayerTid tid e) }
  | _, _ => s

/-- The path-ghost reconciliation pass over every timeline id below
`next_timeline_id`. -/
def reconcilePlayers {α : Type} [LinearOrderedField α] (s : BState α) : BState α :=
  (List.range s.next_timeline_id).foldl reconcilePlayerTl s

/-- `getattr(e, "cmd_ref", None) == cmd and getattr(e, "timeline_id", None)
== tid`: only reconciliation-spawned ghost bullets carry `cmd_ref`. -/
def isGhostBulletCmdTid {α : Type} (cid tid : ℕ) : EntityB α → Bool
  | EntityB.ghostBullet _ _ _ _ t r => r == some cid && t == tid
  | _ => false

/-- The `GhostBullet` spawned by the reconciliation pass (main.py lines
366-372), tagged with `cmd_ref`. -/
def mkReconGhost {α : Type} [LinearOrderedField α] (c : CmdB α) (tid : ℕ) :
    EntityB α :=
  EntityB.ghostBullet c.scheduled_time c.data.pos c.data.velocity
    (c.data.max_lifetime.getD (5 / 2)) tid (some c.cid)

/-- The reconciliation window end of a shoot command:
`spawn + data.get("max_lifetime", 2.5)`. -/
def reconWindowEnd {α : Type} [LinearOrderedField α] (c : CmdB α) : α :=
  c.scheduled_time + c.data.max_lifetime.getD (5 / 2)

/-- Reconcile the one-shot ghost of one (shoot command, timeline id) pair
(main.py lines 354-377). -/
def reconcileBulletTl {α : Type} [LinearOrderedField α] (c : CmdB α)
    (s : BState α) (tid : ℕ) : BState α :=
  if c.scheduled_time ≤ s.global_time ∧ s.global_time < reconWindowEnd c then
    if s.entities.any (isGhostBulletCmdTid c.cid tid) then s
    else { s with entities := s.entities ++ [mkReconGhost c tid] }
  else
    { s with entities :=
        s.entities.filter (fun e => ¬ isGhostBulletCmdTid c.cid tid e) }

/-- The one-shot-ghost reconciliation pass over the permanent log. -/
def reconcileBullets {α : Type} [LinearOrderedField α] (s : BState α) : BState α :=
  s.permanent_command_log.foldl
    (fun s' c =>
      if c.ctype = CmdType.shoot then c.ghosted_timelines.foldl (reconcileBulletTl c) s'
      else s') s

/-- The per-frame bookkeeping passes in main-loop order: branch evaluation,
ghost retirement, path-ghost reconciliation, one-shot-ghost
reconciliation. -/
def frameBookkeeping {α : Type} [LinearOrderedField α] (s : BState α)
    (was_rewinding rewinding : Bool) : BState α :=
  reconcileBullets (reconcilePlayers (retirementLoop
    (branchBlock s was_rewinding rewinding)))

/-! ## The reversible command (src/time_travel.py, class Command) and the
shoot/undo action pair (src/main.py) -/

/-- `Command`: target state type `σ` (the state the actions mutate), payload
type `δ`, explicit forward/backward actions, schedule, `executed` toggle. -/
structure Command (σ δ : Type) where
  data : δ
  forward_fn : σ → δ → σ
  backward_fn : σ → δ → σ
  scheduled_time : ℚ
  executed : Bool

/-- `Command.execute`: apply the forward action and set the flag unless
already executed. -/
def Command.execute {σ δ : Type} (c : Command σ δ) (s : σ) : Command σ δ × σ :=
  if c.executed then (c, s)
  else ({ c with executed := true }, c.forward_fn s c.data)

/-- `Command.reverse`: apply the backward action and clear the flag only if
executed. -/
def Command.reverse {σ δ : Type} (c : Command σ δ) (s : σ) : Command σ δ × σ :=
  if c.executed then ({ c with executed := false }, c.backward_fn s c.data)
  else (c, s)

/-- `getattr(b, "bullet_id", None)` restricted to `isinstance(b, Bullet)`:
live bullets carry their id, `GhostBullet.__init__` passes `bullet_id=-1`
(and `GhostBullet` is a subclass of `Bullet`), other entities do not
match. -/
def bulletIdOf {α : Type} : EntityB α → Option ℤ
  | EntityB.bullet _ _ i _ => some i
  | EntityB.ghostBullet _ _ _ _ _ _ => some (-1)
  | _ => none

/-- `Bullet(data["pos"], data["velocity"], data["bullet_id"])` — the
constructor's default `max_lifetime=1.4`. -/
def mkLiveBullet {α : Type} [LinearOrderedField α] (d : CmdData α) : EntityB α :=
  EntityB.bullet d.pos d.velocity d.bullet_id (7 / 5)

/-- `shoot_bullet(world, data)`: append the live bullet to the entity
list. -/
def shoot_bullet {α : Type} [LinearOrderedField α] (es : List (EntityB α))
    (d : CmdData α) : List (EntityB α) :=
  es ++ [mkLiveBullet d]

/-- The scan of `undo_bullet`: remove the first `Bullet` instance whose
`bullet_id` matches, leaving the rest untouched. -/
def removeFirstBullet {α : Type} : List (EntityB α) → ℤ → List (EntityB α)
  | [], _ => []
  | e :: rest, i =>
    if bulletIdOf e = some i then rest else e :: removeFirstBullet rest i

/-- `undo_bullet(world, data)`. -/
def undo_bullet {α : Type} [LinearOrderedField α] (es : List (EntityB α))
    (d : CmdData α) : List (EntityB α) :=
  removeFirstBullet es d.bullet_id

/-- The command built by `Player.shoot` before `cmd.execute()` is called:
fresh `executed` flag, `shoot_bullet`/`undo_bullet` actions, scheduled
`local_time + 0.01`.  The target is modelled by the world's entity list, the
only world state the two actions touch. -/
def freshShootCommand {α : Type} [LinearOrderedField α] (d : CmdData α)
    (t : ℚ) : Command (List (EntityB α)) (CmdData α) :=
  { data := d, forward_fn := shoot_bullet, backward_fn := undo_bullet,
    scheduled_time := t, executed := false }

/-- The `bullet_data` dictionary built by `Player.shoot`: position, velocity
and a fresh bullet id — no `"max_lifetime"` key. -/
def shootData {α : Type} [LinearOrderedField α] (pos velocity : α × α)
    (bullet_id : ℤ) : CmdData α :=
  { pos := pos, velocity := velocity, bullet_id := bullet_id,
    max_lifetime := none }

/-- The permanent-log record of a `Player.shoot` command after the shoot
method has run (`cmd.execute()` is called inside it): scheduled
`local_time + 0.01`, tagged with the current timeline, fresh ghosted set. -/
def mkShootCmd {α : Type} [LinearOrderedField α] (cid : ℕ)
    (pos velocity : α × α) (bullet_id : ℤ) (local_time : α) (tl : ℕ) :
    CmdB α :=
  { cid := cid, ctype := CmdType.shoot,
    data := shootData pos velocity bullet_id,
    scheduled_time := local_time + 1 / 100, executed := true,
    origin_timeline := tl, ghosted_timelines := [] }

/-- `max_lifetime` of an entity variant that has one. -/
def entityMaxLifetime {α : Type} : EntityB α → Option α
  | EntityB.bullet _ _ _ ml => some ml
  | EntityB.ghostBullet _ _ _ ml _ _ => some ml
  | _ => none

/-! ## Concrete states for the counterexample and witness theorems -/

/-- The distinct timeline ids that still have at least one ghost entity. -/
def activeGhostTids {α : Type} [LinearOrderedField α]
    (es : List (EntityB α)) : List ℕ :=
  (es.filterMap ghostTid).dedup

/-- The claimed charge-conservation invariant: the charge pool within bounds
and `charges + #{committed timelines that still have active ghosts} ≤
MAX_REWINDS`. -/
def chargeInvariant {α : Type} [LinearOrderedField α] (s : BState α) : Prop :=
  0 ≤ s.rewind_charges ∧ s.rewind_charges ≤ MAX_REWINDS ∧
    s.rewind_charges + (activeGhostTids s.entities).length ≤ MAX_REWINDS

instance {α : Type} [LinearOrderedField α] (s : BState α) :
    Decidable (chargeInvariant s) :=
  inferInstanceAs (Decidable (_ ∧ _ ∧ _))

/-- A shoot command whose ghost (of timeline 1) has fully retired and
refunded its charge: ghosted into timeline 1, scheduled at `1.01`, reversed
by the rewind (`executed = False`). -/
def c2cmd : CmdB ℚ :=
  { cid := 0, ctype := CmdType.shoot,
    data := { pos := (400, 300), velocity := (250, 0), bullet_id := 42,
              max_lifetime := none },
    scheduled_time := 101 / 100, executed := false,
    origin_timeline := 0, ghosted_timelines := [1] }

/-- A reachable mid-run state: timeline 1 was committed from `c2cmd`, its
ghost bullet expired (entry deleted, charge refunded, charges back at
`MAX_REWINDS`), and the actor has rewound back inside the ghost's window
(`global_time = 2.5 ∈ [1.01, 3.51)`). -/
def c2state : BState ℚ :=
  { entities := [EntityB.player],
    global_commands := [],
    permanent_command_log := [c2cmd],
    current_timeline_id := 1, next_timeline_id := 2,
    rewind_charges := 3,
    active_timelines := [],
    global_time := 5 / 2,
    player_local_time := 5 / 2, player_pos := (400, 300),
    player_path := [(0, (400, 300))], player_command_queue := [] }

/-- The state of the commit frame itself, just after the branch-evaluation
block created the branch-commit ghost of `c2cmd` for candidate timeline 1
(no `cmd_ref` on it) with `global_time = 2` inside the ghost's window. -/
def c3state : BState ℚ :=
  { entities := [EntityB.player, mkPruneGhost c2cmd 1],
    global_commands := [],
    permanent_command_log := [c2cmd],
    current_timeline_id := 1, next_timeline_id := 2,
    rewind_charges := 2,
    active_timelines := [(1, 1)],
    global_time := 2,
    player_local_time := 1, player_pos := (400, 300),
    player_path := [(0, (400, 300))], player_command_queue := [] }

/-- Ghost bullets originating from a given shoot command (same spawn time)
on a given timeline, counted irrespective of `cmd_ref`. -/
def ghostBulletsOfCmdTid {α : Type} [LinearOrderedField α] (c : CmdB α)
    (tid : ℕ) (es : List (EntityB α)) : ℕ :=
  es.countP (fun e =>
    match e with
    | EntityB.ghostBullet spawn _ _ _ t _ =>
        spawn == c.scheduled_time && t == tid
    | _ => false)

/-- A state about to branch: rewinding just ended with one future move
command of the current timeline in the permanent log. -/
def c1state : BState ℚ :=
  { entities := [EntityB.player],
    global_commands := [],
    permanent_command_log :=
      [{ cid := 5, ctype := CmdType.player_move,
         data := { pos := (410, 300), velocity := (0, 0), bullet_id := 0,
                   max_lifetime := none },
         scheduled_time := 2, executed := false,
         origin_timeline := 0, ghosted_timelines := [] }],
    current_timeline_id := 0, next_timeline_id := 1,
    rewind_charges := 3,
    active_timelines := [],
    global_time := 1,
    player_local_time := 1, player_pos := (400, 300),
    player_path := [(0, (400, 300))], player_command_queue := [] }

/-! ## Helper lemmas -/

theorem get_time_factor_nonneg (pos c : ℝ × ℝ) (r e : ℝ) :
    0 ≤ get_time_factor pos c r e := by
  unfold get_time_factor
  have h : min (vlen (pos.1 - c.1, pos.2 - c.2) / r) 1 ≤ 1 := min_le_right _ _
  exact Real.rpow_nonneg (by linarith) _

theorem lerp2_zero {α : Type} [LinearOrderedField α] (a b : α × α) :
    lerp2 a b 0 = a := by
  cases a with
  | mk a1 a2 => simp [lerp2]

theorem lerp2_one {α : Type} [LinearOrderedField α] (a b : α × α) :
    lerp2 a b 1 = b := by
  cases b with
  | mk b1 b2 =>
    simp only [lerp2, mul_one, Prod.mk.injEq]
    constructor <;> ring

theorem dget_dset_self (d : List (ℕ × ℤ)) (k : ℕ) (v : ℤ) :
    dget (dset d k v) k = v := by
  induction d with
  | nil => simp [dget, dset]
  | cons p rest ih =>
    by_cases h : p.1 = k
    · simp [dget, dset, h]
    · simp [dget, dset, h, ih]

theorem dget_dbump_self (d : List (ℕ × ℤ)) (k : ℕ) (n : ℤ) :
    dget (dbump d k n) k = dget d k + n := by
  simp [dbump, dget_dset_self]

theorem removeFirstBullet_append {α : Type} (es : List (EntityB α))
    (b : EntityB α) (i : ℤ) (h : ∀ e ∈ es, bulletIdOf e ≠ some i)
    (hb : bulletIdOf b = some i) :
    removeFirstBullet (es ++ [b]) i = es := by
  induction es with
  | nil => simp [removeFirstBullet, hb]
  | cons e rest ih =>
    have he : bulletIdOf e ≠ some i := h e (List.mem_cons_self e rest)
    simp only [List.cons_append, removeFirstBullet, if_neg he]
    exact congrArg (List.cons e) (ih (fun x hx => h x (List.mem_cons_of_mem e hx)))

/-! ## C4: the dilation factor's range -/

/-- C4 (counterexample): at a position exactly at the maximum radius from the
centre (distance 500 from `(400,300)`), `get_time_factor` returns `0`, not a
strictly positive value — the source has no epsilon floor-clamp, so the
claimed invariant `factor ∈ (0, 1]` fails. -/
theorem C4_counterexample :
    get_time_factor (900, 300) (400, 300) 500 (23 / 10) = 0 ∧
      ¬ 0 < get_time_factor (900, 300) (400, 300) 500 (23 / 10) := by
  have h1 : vlen ((900 : ℝ) - 400, (300 : ℝ) - 300) = 500 := by
    have h2 : ((900 : ℝ) - 400) ^ 2 + ((300 : ℝ) - 300) ^ 2 = 500 ^ 2 := by norm_num
    rw [vlen]
    dsimp only
    rw [h2, Real.sqrt_sq (by norm_num : (0 : ℝ) ≤ 500)]
  have h3 : get_time_factor (900, 300) (400, 300) 500 (23 / 10) = 0 := by
    unfold get_time_factor
    dsimp only
    rw [h1]
    norm_num
  exact ⟨h3, by rw [h3]; exact lt_irrefl 0⟩

/-- C4 (amended): for positive radius and exponent the factor lies in the
closed interval `[0, 1]`, and it is `0` exactly when the distance from the
centre is at least the maximum radius (the source applies no positive
epsilon floor). -/
theorem C4_amended_factor_range (pos c : ℝ × ℝ) (r e : ℝ)
    (hr : 0 < r) (he : 0 < e) :
    0 ≤ get_time_factor pos c r e ∧ get_time_factor pos c r e ≤ 1 ∧
      (get_time_factor pos c r e = 0 ↔ r ≤ vlen (pos.1 - c.1, pos.2 - c.2)) := by
  have hd : 0 ≤ vlen (pos.1 - c.1, pos.2 - c.2) := Real.sqrt_nonneg _
  unfold get_time_factor
  set d := vlen (pos.1 - c.1, pos.2 - c.2) with hdd
  have ht0 : 0 ≤ min (d / r) 1 := le_min (div_nonneg hd hr.le) zero_le_one
  have ht1 : min (d / r) 1 ≤ 1 := min_le_right _ _
  have hb0 : 0 ≤ 1 - min (d / r) 1 := by linarith
  refine ⟨Real.rpow_nonneg hb0 _, Real.rpow_le_one hb0 (by linarith) he.le, ?_⟩
  constructor
  · intro h0
    by_contra hlt
    push_neg at hlt
    have hmin : min (d / r) 1 < 1 := by
      have : d / r < 1 := (div_lt_one hr).2 hlt
      exact lt_of_le_of_lt (min_le_left _ _) this
    have hpos : 0 < 1 - min (d / r) 1 := by linarith
    exact absurd h0 (ne_of_gt (Real.rpow_pos_of_pos hpos _))
  · intro hge
    have hmin : min (d / r) 1 = 1 :=
      min_eq_right_iff.2 ((one_le_div hr).2 hge)
    rw [hmin]
    norm_num
    exact Real.zero_rpow (by linarith)

/-- C4 witness for the amended theorem. -/
theorem C4_amended_witness :
    (0 : ℝ) < 500 ∧ (0 : ℝ) < 23 / 10 ∧
      (0 ≤ get_time_factor (0, 0) (0, 0) 500 (23 / 10) ∧
        get_time_factor (0, 0) (0, 0) 500 (23 / 10) ≤ 1 ∧
        (get_time_factor (0, 0) (0, 0) 500 (23 / 10) = 0 ↔
          (500 : ℝ) ≤ vlen ((0 : ℝ) - 0, (0 : ℝ) - 0))) :=
  ⟨by norm_num, by norm_num,
    C4_amended_factor_range (0, 0) (0, 0) 500 (23 / 10) (by norm_num) (by norm_num)⟩

/-! ## C5: local clocks never go negative -/

/-- C5: after every per-frame clock update — the `TimeEntity` rule for any
`dt`, position and direction, the ghost-bullet rule, the ghost-player rule
under the global-clock invariant, and the global clock itself for
nonnegative `dt` — the resulting local time is nonnegative. -/
theorem C5_local_time_nonneg :
    (∀ (lt dt : ℝ) (pos : ℝ × ℝ) (rew : Bool),
      0 ≤ updateLocalTime lt dt pos rew) ∧
    (∀ lt spawn g : ℝ, 0 ≤ lt → 0 ≤ ghostBulletLocalTime lt spawn g) ∧
    (∀ g : ℝ, 0 ≤ g → 0 ≤ ghostPlayerLocalTime g) ∧
    (∀ (g dt : ℝ) (rew : Bool), 0 ≤ g → 0 ≤ dt →
      0 ≤ updateGlobalTime g dt rew) := by
  refine ⟨fun lt dt pos rew => le_max_right _ _, fun lt spawn g hlt => ?_,
    fun g hg => hg, fun g dt rew hg hdt => ?_⟩
  · unfold ghostBulletLocalTime
    split
    · exact hlt
    · exact le_max_left _ _
  · unfold updateGlobalTime
    split
    · exact le_max_left _ _
    · linarith

/-- C5 witness: the clock rules applied at concrete inputs. -/
theorem C5_witness :
    0 ≤ updateLocalTime 5 1 (0, 0) true ∧
      ((0 : ℝ) ≤ 0 ∧ 0 ≤ ghostBulletLocalTime 0 1 2) ∧
      ((0 : ℝ) ≤ 1 ∧ 0 ≤ ghostPlayerLocalTime 1) ∧
      ((0 : ℝ) ≤ 0 ∧ (0 : ℝ) ≤ 1 ∧ 0 ≤ updateGlobalTime 0 1 true) :=
  ⟨C5_local_time_nonneg.1 5 1 (0, 0) true,
    ⟨le_refl 0, C5_local_time_nonneg.2.1 0 1 2 (le_refl 0)⟩,
    ⟨by norm_num, C5_local_time_nonneg.2.2.1 1 (by norm_num)⟩,
    ⟨le_refl 0, by norm_num,
      C5_local_time_nonneg.2.2.2 0 1 true (le_refl 0) (by norm_num)⟩⟩

/-! ## C7: execute / reverse idempotence -/

/-- C7: `execute()` on an already-executed command and `reverse()` on a
not-yet-executed command change neither the target state nor the command's
flag. -/
theorem C7_idempotence {σ δ : Type} (c : Command σ δ) (s : σ) :
    (c.executed = true → c.execute s = (c, s)) ∧
    (c.executed = false → c.reverse s = (c, s)) := by
  constructor
  · intro h
    simp [Command.execute, h]
  · intro h
    simp [Command.reverse, h]

/-- C7 witness: both no-op cases at concrete commands over `ℕ` state. -/
theorem C7_witness :
    ((⟨0, fun s _ => s + 1, fun s _ => s - 1, 0, true⟩ :
        Command ℕ ℕ).executed = true ∧
      Command.execute (⟨0, fun s _ => s + 1, fun s _ => s - 1, 0, true⟩ :
        Command ℕ ℕ) 7 =
        (⟨0, fun s _ => s + 1, fun s _ => s - 1, 0, true⟩, 7)) ∧
    ((⟨0, fun s _ => s + 1, fun s _ => s - 1, 0, false⟩ :
        Command ℕ ℕ).executed = false ∧
      Command.reverse (⟨0, fun s _ => s + 1, fun s _ => s - 1, 0, false⟩ :
        Command ℕ ℕ) 7 =
        (⟨0, fun s _ => s + 1, fun s _ => s - 1, 0, false⟩, 7)) :=
  ⟨⟨rfl, (C7_idempotence _ 7).1 rfl⟩, ⟨rfl, (C7_idempotence _ 7).2 rfl⟩⟩

/-! ## C10: ghost default lifetime 2.5 vs live bullet lifetime 1.4 -/

/-- C10: a `Player.shoot` payload carries no `max_lifetime`, so both the
branch-commit ghost and the reconciliation ghost of that command get the
2.5-second default (and a visibility window of length 2.5), while the live
bullet spawned by executing the same command gets the `Bullet` constructor
default of 1.4 seconds — the ghost outlives the live projectile's lifetime
by 1.1 seconds. -/
theorem C10_ghost_vs_live_lifetime {α : Type} [LinearOrderedField α]
    (cid : ℕ) (pos velocity : α × α) (bullet_id : ℤ) (local_time : α)
    (tl new_tl : ℕ) :
    (mkShootCmd cid pos velocity bullet_id local_time tl).data.max_lifetime
        = none ∧
    entityMaxLifetime
        (mkPruneGhost (mkShootCmd cid pos velocity bullet_id local_time tl)
          new_tl) = some (5 / 2) ∧
    entityMaxLifetime
        (mkReconGhost (mkShootCmd cid pos velocity bullet_id local_time tl)
          new_tl) = some (5 / 2) ∧
    reconWindowEnd (mkShootCmd cid pos velocity bullet_id local_time tl) -
        (mkShootCmd cid pos velocity bullet_id local_time tl).scheduled_time
        = 5 / 2 ∧
    (∀ es : List (EntityB α),
      shoot_bullet es (mkShootCmd cid pos velocity bullet_id local_time tl).data
        = es ++ [EntityB.bullet pos velocity bullet_id (7 / 5)]) ∧
    entityMaxLifetime
        (mkLiveBullet (mkShootCmd cid pos velocity bullet_id local_time tl).data)
        = some (7 / 5) ∧
    (5 / 2 : α) - 7 / 5 = 11 / 10 := by
  refine ⟨rfl, rfl, rfl, ?_, fun es => rfl, rfl, by norm_num⟩
  simp [reconWindowEnd, mkShootCmd, shootData]

/-! ## C6: execute-then-reverse round trip for a shoot command -/

/-- C6: for a freshly created shoot command whose `bullet_id` is not shared
by any bullet already in the world, `execute()` followed by `reverse()`
restores both the command's flag and the world's entity list exactly. -/
theorem C6_execute_reverse_roundtrip {α : Type} [LinearOrderedField α]
    (es : List (EntityB α)) (d : CmdData α) (t : ℚ)
    (hfresh : ∀ e ∈ es, bulletIdOf e ≠ some d.bullet_id) :
    Command.reverse ((freshShootCommand d t).execute es).1
        ((freshShootCommand d t).execute es).2 = (freshShootCommand d t, es) := by
  have h1 : (freshShootCommand d t).execute es =
      ({ freshShootCommand d t with executed := true }, shoot_bullet es d) := by
    simp [Command.execute, freshShootCommand]
  rw [h1]
  have h2 : Command.reverse
      ({ freshShootCommand d t with executed := true } :
        Command (List (EntityB α)) (CmdData α)) (shoot_bullet es d) =
      (freshShootCommand d t, undo_bullet (shoot_bullet es d) d) := by
    simp [Command.reverse, freshShootCommand]
  rw [h2]
  have h3 : undo_bullet (shoot_bullet es d) d = es := by
    unfold undo_bullet shoot_bullet
    exact removeFirstBullet_append es (mkLiveBullet d) d.bullet_id hfresh rfl
  rw [h3]

/-- C6 witness: round trip from a world holding a timer, with a fresh
bullet id. -/
theorem C6_witness :
    (∀ e ∈ ([EntityB.timer] : List (EntityB ℚ)),
      bulletIdOf e ≠ some (shootData ((0 : ℚ), 0) (1, 0) 7).bullet_id) ∧
    Command.reverse
        ((freshShootCommand (shootData ((0 : ℚ), 0) (1, 0) 7) 0).execute
          [EntityB.timer]).1
        ((freshShootCommand (shootData ((0 : ℚ), 0) (1, 0) 7) 0).execute
          [EntityB.timer]).2 =
      (freshShootCommand (shootData ((0 : ℚ), 0) (1, 0) 7) 0,
        [EntityB.timer]) :=
  ⟨by decide,
    C6_execute_reverse_roundtrip [EntityB.timer] (shootData (0, 0) (1, 0) 7) 0
      (by decide)⟩

/-! ## C8: get_pos lookup semantics -/

theorem getLast?_mem_list {β : Type} {l : List β} {y : β}
    (h : l.getLast? = some y) : y ∈ l := by
  rcases List.mem_getLast?_eq_getLast (Option.mem_def.2 h) with ⟨hne, hy⟩
  rw [hy]
  exact List.getLast_mem hne

theorem getPosGo_exact {α : Type} [LinearOrderedField α] :
    ∀ (rest : List (α × (α × α))) (prev : α × (α × α)),
      List.Pairwise (fun a b => a.1 < b.1) (prev :: rest) →
      ∀ tp ∈ rest, getPosGo prev rest tp.1 = tp.2 := by
  intro rest
  induction rest with
  | nil =>
    intro prev _ tp htp
    exact absurd htp (List.not_mem_nil tp)
  | cons nx rest ih =>
    intro prev hp tp htp
    rw [List.pairwise_cons] at hp
    have hprevnx : prev.1 < nx.1 := hp.1 nx (List.mem_cons_self nx rest)
    rcases List.mem_cons.1 htp with h | h
    · subst h
      simp only [getPosGo]
      rw [if_pos (le_refl tp.1), if_pos hprevnx,
        div_self (sub_ne_zero.2 (ne_of_gt hprevnx)), min_self,
        max_eq_right zero_le_one, lerp2_one]
    · have hlt : nx.1 < tp.1 := (List.pairwise_cons.1 hp.2).1 tp h
      simp only [getPosGo]
      rw [if_neg (not_le.2 hlt)]
      exact ih nx hp.2 tp h

theorem getPosGo_le_head {α : Type} [LinearOrderedField α]
    (rest : List (α × (α × α))) (prev : α × (α × α)) (q : α)
    (hh : ∀ nx ∈ rest.head?, prev.1 < nx.1) (hq : q ≤ prev.1) :
    getPosGo prev rest q = prev.2 := by
  cases rest with
  | nil => rfl
  | cons nx rest =>
    have h1 : prev.1 < nx.1 := hh nx rfl
    simp only [getPosGo]
    rw [if_pos (le_of_lt (lt_of_le_of_lt hq h1)), if_pos h1]
    have halpha : (q - prev.1) / (nx.1 - prev.1) ≤ 0 :=
      div_nonpos_iff.2 (Or.inr ⟨sub_nonpos.2 hq, le_of_lt (sub_pos.2 h1)⟩)
    have hmin : min 1 ((q - prev.1) / (nx.1 - prev.1)) ≤ 0 :=
      le_trans (min_le_right _ _) halpha
    rw [max_eq_left hmin, lerp2_zero]

theorem getPosGo_ge_last {α : Type} [LinearOrderedField α] :
    ∀ (rest : List (α × (α × α))) (prev y : α × (α × α)) (q : α),
      List.Pairwise (fun a b => a.1 < b.1) (prev :: rest) →
      (prev :: rest).getLast? = some y → y.1 ≤ q →
      getPosGo prev rest q = y.2 := by
  intro rest
  induction rest with
  | nil =>
    intro prev y q _ hl hq
    have : prev = y := by simpa using hl
    subst this
    rfl
  | cons nx rest ih =>
    intro prev y q hp hl hq
    have hl' : (nx :: rest).getLast? = some y := by
      rwa [List.getLast?_cons_cons] at hl
    rw [List.pairwise_cons] at hp
    have hmem : y ∈ nx :: rest := getLast?_mem_list hl'
    by_cases hcase : q ≤ nx.1
    · rcases List.mem_cons.1 hmem with hynx | hyrest
      · subst hynx
        have hq' : q = y.1 := le_antisymm hcase hq
        have hpn : prev.1 < y.1 := hp.1 y (List.mem_cons_self y rest)
        simp only [getPosGo]
        rw [if_pos hcase, if_pos hpn, hq',
          div_self (sub_ne_zero.2 (ne_of_gt hpn)), min_self,
          max_eq_right zero_le_one, lerp2_one]
      · exfalso
        have : nx.1 < y.1 := (List.pairwise_cons.1 hp.2).1 y hyrest
        exact absurd (le_trans hq hcase) (not_le.2 this)
    · simp only [getPosGo]
      rw [if_neg hcase]
      exact ih nx y q hp.2 hl' hq

theorem getPosGo_bracket {α : Type} [LinearOrderedField α] :
    ∀ (l1 : List (α × (α × α))) (prev : α × (α × α))
      (rest : List (α × (α × α))) (a b : α × (α × α))
      (l2 : List (α × (α × α))) (q : α),
      List.Pairwise (fun x y => x.1 < y.1) (prev :: rest) →
      prev :: rest = l1 ++ a :: b :: l2 → a.1 < q → q < b.1 →
      getPosGo prev rest q = lerp2 a.2 b.2 ((q - a.1) / (b.1 - a.1)) := by
  intro l1
  induction l1 with
  | nil =>
    intro prev rest a b l2 q _ heq hqa hqb
    rw [List.nil_append] at heq
    injection heq with h1 h2
    subst h1
    subst h2
    simp only [getPosGo]
    rw [if_pos (le_of_lt hqb)]
    have hab : prev.1 < b.1 := lt_trans hqa hqb
    rw [if_pos hab]
    have h0 : 0 ≤ (q - prev.1) / (b.1 - prev.1) :=
      le_of_lt (div_pos (sub_pos.2 hqa) (sub_pos.2 hab))
    have h1' : (q - prev.1) / (b.1 - prev.1) ≤ 1 :=
      le_of_lt ((div_lt_one (sub_pos.2 hab)).2 (by linarith))
    rw [min_eq_right h1', max_eq_right h0]
  | cons x l1' ih =>
    intro prev rest a b l2 q hp heq hqa hqb
    rw [List.cons_append] at heq
    injection heq with h1 h2
    subst h1
    subst h2
    cases l1' with
    | nil =>
      rw [List.nil_append]
      simp only [getPosGo]
      rw [if_neg (not_le.2 hqa)]
      exact ih a (b :: l2) a b l2 q (List.pairwise_cons.1 hp).2 rfl hqa hqb
    | cons y l1'' =>
      rw [List.cons_append]
      simp only [getPosGo]
      have hy : y.1 < q := by
        have hmem : a ∈ l1'' ++ a :: b :: l2 :=
          List.mem_append_right _ (List.mem_cons_self _ _)
        have hyr : List.Pairwise (fun x y => x.1 < y.1)
            (y :: (l1'' ++ a :: b :: l2)) := by
          have := (List.pairwise_cons.1 hp).2
          rwa [List.cons_append] at this
        exact lt_trans ((List.pairwise_cons.1 hyr).1 a hmem) hqa
      rw [if_neg (not_le.2 hy)]
      have hp' : List.Pairwise (fun x y => x.1 < y.1)
          (y :: (l1'' ++ a :: b :: l2)) := by
        have := (List.pairwise_cons.1 hp).2
        rwa [List.cons_append] at this
      exact ih y (l1'' ++ a :: b :: l2) a b l2 q hp' rfl hqa hqb

/-- C8: on a path with strictly increasing sample times, `get_pos` returns
the exact sample position at a sample time, the first sample's position at or
before the first time, the last sample's position at or after the last time,
the linear interpolation of the bracketing pair strictly between two adjacent
samples, and `none` on the empty path. -/
theorem C8_get_pos_spec {α : Type} [LinearOrderedField α]
    (path : List (α × (α × α)))
    (hsort : List.Pairwise (fun a b => a.1 < b.1) path) :
    (∀ q : α, get_pos ([] : List (α × (α × α))) q = none) ∧
    (∀ tp ∈ path, get_pos path tp.1 = some tp.2) ∧
    (∀ x ∈ path.head?, ∀ q : α, q ≤ x.1 → get_pos path q = some x.2) ∧
    (∀ y ∈ path.getLast?, ∀ q : α, y.1 ≤ q → get_pos path q = some y.2) ∧
    (∀ (l1 l2 : List (α × (α × α))) (a b : α × (α × α)) (q : α),
      path = l1 ++ a :: b :: l2 → a.1 < q → q < b.1 →
      get_pos path q = some (lerp2 a.2 b.2 ((q - a.1) / (b.1 - a.1)))) := by
  refine ⟨fun _ => rfl, ?_, ?_, ?_, ?_⟩
  · intro tp htp
    cases path with
    | nil => exact absurd htp (List.not_mem_nil tp)
    | cons x rest =>
      rcases List.mem_cons.1 htp with h | h
      · subst h
        show some (getPosGo tp rest tp.1) = some tp.2
        refine congrArg some (getPosGo_le_head rest tp tp.1 ?_ (le_refl _))
        intro nx hnx
        cases rest with
        | nil => exact absurd hnx (by simp)
        | cons z zs =>
          have : z = nx := by simpa using hnx
          subst this
          exact (List.pairwise_cons.1 hsort).1 z (List.mem_cons_self z zs)
      · exact congrArg some (getPosGo_exact rest x hsort tp h)
  · intro x hx q hq
    cases path with
    | nil => exact absurd hx (by simp)
    | cons x0 rest =>
      have hx0 : x0 = x := by simpa using hx
      subst hx0
      refine congrArg some (getPosGo_le_head rest x0 q ?_ hq)
      intro nx hnx
      cases rest with
      | nil => exact absurd hnx (by simp)
      | cons z zs =>
        have : z = nx := by simpa using hnx
        subst this
        exact (List.pairwise_cons.1 hsort).1 z (List.mem_cons_self z zs)
  · intro y hy q hq
    cases path with
    | nil => exact absurd hy (by simp)
    | cons x0 rest =>
      exact congrArg some
        (getPosGo_ge_last rest x0 y q hsort (Option.mem_def.1 hy) hq)
  · intro l1 l2 a b q heq hqa hqb
    cases path with
    | nil =>
      exfalso
      cases l1 with
      | nil => exact List.noConfusion heq
      | cons z zs => exact List.noConfusion heq
    | cons x0 rest =>
      exact congrArg some (getPosGo_bracket l1 x0 rest a b l2 q hsort heq hqa hqb)

/-- C8 witness: the specification applied to the concrete sorted path
`[(0, (0,0)), (1, (2,2))]` over `ℚ`. -/
theorem C8_witness :
    List.Pairwise (fun a b => a.1 < b.1)
      ([(0, ((0 : ℚ), 0)), (1, (2, 2))] : List (ℚ × (ℚ × ℚ))) ∧
    ((∀ q : ℚ, get_pos ([] : List (ℚ × (ℚ × ℚ))) q = none) ∧
      (∀ tp ∈ ([(0, ((0 : ℚ), 0)), (1, (2, 2))] : List (ℚ × (ℚ × ℚ))),
        get_pos [(0, ((0 : ℚ), 0)), (1, (2, 2))] tp.1 = some tp.2) ∧
      (∀ x ∈ ([(0, ((0 : ℚ), 0)), (1, (2, 2))] :
          List (ℚ × (ℚ × ℚ))).head?, ∀ q : ℚ, q ≤ x.1 →
        get_pos [(0, ((0 : ℚ), 0)), (1, (2, 2))] q = some x.2) ∧
      (∀ y ∈ ([(0, ((0 : ℚ), 0)), (1, (2, 2))] :
          List (ℚ × (ℚ × ℚ))).getLast?, ∀ q : ℚ, y.1 ≤ q →
        get_pos [(0, ((0 : ℚ), 0)), (1, (2, 2))] q = some y.2) ∧
      (∀ (l1 l2 : List (ℚ × (ℚ × ℚ))) (a b : ℚ × (ℚ × ℚ)) (q : ℚ),
        ([(0, ((0 : ℚ), 0)), (1, (2, 2))] : List (ℚ × (ℚ × ℚ)))
            = l1 ++ a :: b :: l2 → a.1 < q → q < b.1 →
        get_pos [(0, ((0 : ℚ), 0)), (1, (2, 2))] q
            = some (lerp2 a.2 b.2 ((q - a.1) / (b.1 - a.1))))) :=
  ⟨by decide, C8_get_pos_spec _ (by decide)⟩

/-! ## C9: path time ordering -/

theorem pairwise_time_le_last {α : Type} [LinearOrderedField α] :
    ∀ (l : List (α × (α × α))) (y : α × (α × α)),
      List.Pairwise (fun a b => a.1 < b.1) l → l.getLast? = some y →
      ∀ x ∈ l, x.1 ≤ y.1 := by
  intro l
  induction l with
  | nil =>
    intro y _ hl
    exact absurd hl (by simp)
  | cons a l ih =>
    intro y hp hl x hx
    cases l with
    | nil =>
      have h1 : a = y := by simpa using hl
      subst h1
      have h2 : x = a := by simpa using hx
      subst h2
      exact le_refl _
    | cons b l' =>
      rw [List.getLast?_cons_cons] at hl
      have hymem : y ∈ b :: l' := getLast?_mem_list hl
      rcases List.mem_cons.1 hx with h | h
      · subst h
        exact le_of_lt ((List.pairwise_cons.1 hp).1 y hymem)
      · exact ih y (List.pairwise_cons.1 hp).2 hl x h

theorem pairwise_append_singleton {α : Type} [LinearOrderedField α]
    (l : List (α × (α × α))) (z : α × (α × α))
    (hp : List.Pairwise (fun a b => a.1 < b.1) l)
    (h : ∀ x ∈ l, x.1 < z.1) :
    List.Pairwise (fun a b => a.1 < b.1) (l ++ [z]) := by
  rw [List.pairwise_append]
  refine ⟨hp, List.pairwise_singleton _ _, fun x hx y hy => ?_⟩
  have : y = z := by simpa using hy
  subst this
  exact h x hx

theorem ensurePathGo_pairwise (until_time step_size : ℝ) (velocity : ℝ × ℝ)
    (hstep : 0 < step_size) :
    ∀ (fuel : ℕ) (t : ℝ) (last_pos : ℝ × ℝ) (acc : List (ℝ × (ℝ × ℝ))),
      List.Pairwise (fun a b => a.1 < b.1) acc →
      (∀ x ∈ acc, x.1 ≤ t) →
      List.Pairwise (fun a b => a.1 < b.1)
        (ensurePathGo until_time step_size velocity fuel t last_pos acc) := by
  intro fuel
  induction fuel with
  | zero =>
    intro t lp acc hpa _
    exact hpa
  | succ n ih =>
    intro t lp acc hpa hle
    simp only [ensurePathGo]
    split
    · apply ih
      · exact pairwise_append_singleton acc _ hpa
          (fun x hx => lt_of_le_of_lt (hle x hx) (by linarith))
      · intro x hx
        rcases List.mem_append.1 hx with h | h
        · exact le_trans (hle x h) (by linarith)
        · have hx' : x = (t + step_size,
              (lp.1 + velocity.1 * step_size *
                  get_time_factor lp (400, 300) 500 (23 / 10),
               lp.2 + velocity.2 * step_size *
                  get_time_factor lp (400, 300) 500 (23 / 10))) := by
            simpa using h
          rw [hx']
    · exact hpa

/-- C9 (amended): the deterministic bake `ensure_path` does maintain
strictly increasing sample times: starting from a strictly-increasing (or
empty) path and a positive step size, the extended path has strictly
increasing times for every iteration budget.  The live player path does not
enjoy the claimed invariant — see the counterexample. -/
theorem C9_amended_ensure_path (path : List (ℝ × (ℝ × ℝ)))
    (until_time step_size : ℝ) (start_pos velocity : ℝ × ℝ) (fuel : ℕ)
    (hstep : 0 < step_size)
    (hsort : List.Pairwise (fun a b => a.1 < b.1) path) :
    List.Pairwise (fun a b => a.1 < b.1)
      (ensure_path path until_time step_size start_pos velocity fuel) := by
  simp only [ensure_path]
  apply ensurePathGo_pairwise until_time step_size velocity hstep fuel _ _ path hsort
  intro x hx
  cases hpl : path.getLast? with
  | none =>
    rw [List.getLast?_eq_none_iff] at hpl
    subst hpl
    exact absurd hx (List.not_mem_nil x)
  | some y =>
    simp only [hpl, Option.map_some', Option.getD_some]
    exact pairwise_time_le_last path y hsort hpl x hx

/-- C9 amended-theorem witness: a concrete bake from the empty path with
step `1/20`. -/
theorem C9_amended_witness :
    (0 : ℝ) < 1 / 20 ∧
    List.Pairwise (fun a b => a.1 < b.1)
      (ensure_path ([] : List (ℝ × (ℝ × ℝ))) (7 / 5) (1 / 20) (400, 300)
        (250, 0) 30) :=
  ⟨by norm_num,
    C9_amended_ensure_path [] (7 / 5) (1 / 20) (400, 300) (250, 0) 30
      (by norm_num) (List.Pairwise.nil)⟩

theorem updateLocalTime_rewind_le (local_time dt : ℝ) (pos : ℝ × ℝ)
    (hdt : 0 ≤ dt) (hlt : 0 ≤ local_time) :
    updateLocalTime local_time dt pos true ≤ local_time := by
  unfold updateLocalTime
  have hf := get_time_factor_nonneg pos (400, 300) 500 (23 / 10)
  have h1 : local_time + (if (true : Bool) then -dt else dt) *
      get_time_factor pos (400, 300) 500 (23 / 10) ≤ local_time := by
    simp only [if_true]
    nlinarith
  exact max_le h1 hlt

theorem recordFrame_fst (path : List (ℝ × (ℝ × ℝ))) (local_time : ℝ)
    (pos : ℝ × ℝ) (dt : ℝ) (move_dir : ℝ × ℝ) (rewinding : Bool)
    (hmd : 0 < move_dir.1 ^ 2 + move_dir.2 ^ 2) :
    ∃ p, (recordFrame path local_time pos dt move_dir rewinding).1 =
      path ++ [(local_time + dt, p)] := by
  simp only [recordFrame, add_step]
  rw [if_pos hmd]
  exact ⟨_, rfl⟩

theorem recordFrame_snd_le (path : List (ℝ × (ℝ × ℝ))) (local_time : ℝ)
    (pos : ℝ × ℝ) (dt : ℝ) (move_dir : ℝ × ℝ)
    (hdt : 0 ≤ dt) (hlt : 0 ≤ local_time) :
    (recordFrame path local_time pos dt move_dir true).2.1 ≤ local_time := by
  simp only [recordFrame]
  exact updateLocalTime_rewind_le _ _ _ hdt hlt

/-- C9 (counterexample): the player's live movement path is not kept
strictly increasing in time.  With the player at local time 1 holding a
movement key through two consecutive rewinding frames of `dt = 1/2`, the
first frame appends a sample at time `3/2` while the second appends one at
`local_time' + 1/2 ≤ 3/2` (the rewinding clock rule cannot increase the
local time), so the recorded sequence is not strictly increasing. -/
theorem C9_counterexample :
    ¬ List.Pairwise (fun a b => a.1 < b.1) c9frame2.1 := by
  intro hp
  obtain ⟨p1, h1⟩ := recordFrame_fst [(0, ((400 : ℝ), 300))] 1 (400, 300)
    (1 / 2) (1, 0) true (by norm_num)
  obtain ⟨p2, h2⟩ := recordFrame_fst c9frame1.1 c9frame1.2.1 c9frame1.2.2
    (1 / 2) (1, 0) true (by norm_num)
  have hle : c9frame1.2.1 ≤ 1 := recordFrame_snd_le [(0, ((400 : ℝ), 300))] 1
    (400, 300) (1 / 2) (1, 0) (by norm_num) (by norm_num)
  have h1' : c9frame1.1 = [(0, ((400 : ℝ), 300))] ++ [(1 + 1 / 2, p1)] := by
    rw [show c9frame1.1 = (recordFrame [(0, ((400 : ℝ), 300))] 1 (400, 300)
      (1 / 2) (1, 0) true).1 from rfl, h1]
  have h2' : c9frame2.1 =
      (([(0, ((400 : ℝ), 300))] ++ [(1 + 1 / 2, p1)]) ++
        [(c9frame1.2.1 + 1 / 2, p2)]) := by
    rw [show c9frame2.1 = (recordFrame c9frame1.1 c9frame1.2.1 c9frame1.2.2
      (1 / 2) (1, 0) true).1 from rfl, h2, h1']
  rw [h2'] at hp
  rcases List.pairwise_append.1 hp with ⟨_, _, hrel⟩
  have hlt : (1 : ℝ) + 1 / 2 < c9frame1.2.1 + 1 / 2 :=
    hrel (1 + 1 / 2, p1) (by simp) (c9frame1.2.1 + 1 / 2, p2) (by simp)
  linarith

/-! ## Structural lemmas on the prune passes -/

theorem pruneBulletsGo_log {α : Type} [LinearOrderedField α]
    (tp : α) (ntl ptl : ℕ) :
    ∀ (log : List (CmdB α)) (es : List (EntityB α)) (gc : List ℕ)
      (act : List (ℕ × ℤ)) (flag : Bool),
      (pruneBulletsGo tp ntl ptl log es gc act flag).1 =
        log.map (fun c => if bulletGhostCond tp ntl ptl c then
          { c with ghosted_timelines := insertTl c.ghosted_timelines ntl }
          else c) := by
  intro log
  induction log with
  | nil => intro es gc act flag; rfl
  | cons c rest ih =>
    intro es gc act flag
    simp only [pruneBulletsGo, List.map_cons]
    by_cases h : bulletGhostCond tp ntl ptl c
    · rw [if_pos h, if_pos h]
      exact congrArg _ (ih _ _ _ _)
    · rw [if_neg h, if_neg h]
      exact congrArg _ (ih _ _ _ _)

theorem pruneBulletsGo_entities {α : Type} [LinearOrderedField α]
    (tp : α) (ntl ptl : ℕ) :
    ∀ (log : List (CmdB α)) (es : List (EntityB α)) (gc : List ℕ)
      (act : List (ℕ × ℤ)) (flag : Bool),
      (pruneBulletsGo tp ntl ptl log es gc act flag).2.1 =
        es ++ (log.filter (fun c =>
          decide (bulletGhostCond tp ntl ptl c))).map
            (fun c => mkPruneGhost c ntl) := by
  intro log
  induction log with
  | nil => intro es gc act flag; simp [pruneBulletsGo]
  | cons c rest ih =>
    intro es gc act flag
    simp only [pruneBulletsGo, List.filter_cons]
    by_cases h : bulletGhostCond tp ntl ptl c
    · rw [if_pos h]
      simp only [decide_eq_true_eq, h, if_pos]
      rw [ih]
      simp [List.append_assoc]
    · rw [if_neg h]
      simp only [decide_eq_true_eq, h, if_neg, ite_false]
      rw [ih]

theorem pruneBulletsGo_flag {α : Type} [LinearOrderedField α]
    (tp : α) (ntl ptl : ℕ) :
    ∀ (log : List (CmdB α)) (es : List (EntityB α)) (gc : List ℕ)
      (act : List (ℕ × ℤ)) (flag : Bool),
      (pruneBulletsGo tp ntl ptl log es gc act flag).2.2.2.2 =
        (flag || log.any (fun c => decide (bulletGhostCond tp ntl ptl c))) := by
  intro log
  induction log with
  | nil => intro es gc act flag; simp [pruneBulletsGo]
  | cons c rest ih =>
    intro es gc act flag
    simp only [pruneBulletsGo, List.any_cons]
    by_cases h : bulletGhostCond tp ntl ptl c
    · rw [if_pos h]
      rw [ih]
      simp [h]
    · rw [if_neg h]
      rw [ih]
      simp [h]

theorem pruneBulletsGo_nomatch {α : Type} [LinearOrderedField α]
    (tp : α) (ntl ptl : ℕ) :
    ∀ (log : List (CmdB α)) (es : List (EntityB α)) (gc : List ℕ)
      (act : List (ℕ × ℤ)) (flag : Bool),
      (∀ c ∈ log, ¬ bulletGhostCond tp ntl ptl c) →
      pruneBulletsGo tp ntl ptl log es gc act flag = (log, es, gc, act, flag) := by
  intro log
  induction log with
  | nil => intro es gc act flag _; rfl
  | cons c rest ih =>
    intro es gc act flag h
    simp only [pruneBulletsGo]
    rw [if_neg (h c (List.mem_cons_self c rest))]
    rw [ih es gc act flag (fun x hx => h x (List.mem_cons_of_mem c hx))]

theorem pruneMovesGo_fst {α : Type} [LinearOrderedField α]
    (tp : α) (ntl ptl : ℕ) :
    ∀ (log : List (CmdB α)),
      (pruneMovesGo tp ntl ptl log).1 =
        log.map (fun c => if moveGhostCond tp ntl ptl c then
          { c with ghosted_timelines := insertTl c.ghosted_timelines ntl }
          else c) := by
  intro log
  induction log with
  | nil => rfl
  | cons c rest ih =>
    simp only [pruneMovesGo, List.map_cons]
    by_cases h : moveGhostCond tp ntl ptl c
    · rw [if_pos h, if_pos h]
      exact congrArg _ ih
    · rw [if_neg h, if_neg h]
      exact congrArg _ ih

theorem pruneMovesGo_snd {α : Type} [LinearOrderedField α]
    (tp : α) (ntl ptl : ℕ) :
    ∀ (log : List (CmdB α)),
      (pruneMovesGo tp ntl ptl log).2 =
        (log.filter (fun c => decide (moveGhostCond tp ntl ptl c))).map
          (fun c => (c.scheduled_time, c.data.pos)) := by
  intro log
  induction log with
  | nil => rfl
  | cons c rest ih =>
    simp only [pruneMovesGo, List.filter_cons]
    by_cases h : moveGhostCond tp ntl ptl c
    · rw [if_pos h]
      simp only [decide_eq_true_eq, h, if_pos]
      simp only [List.map_cons]
      exact congrArg _ ih
    · rw [if_neg h]
      simp only [decide_eq_true_eq, h, if_neg, ite_false]
      exact ih

theorem pruneMovesGo_nomatch {α : Type} [LinearOrderedField α]
    (tp : α) (ntl ptl : ℕ) :
    ∀ (log : List (CmdB α)),
      (∀ c ∈ log, ¬ moveGhostCond tp ntl ptl c) →
      pruneMovesGo tp ntl ptl log = (log, []) := by
  intro log
  induction log with
  | nil => intro _; rfl
  | cons c rest ih =>
    intro h
    simp only [pruneMovesGo]
    rw [if_neg (h c (List.mem_cons_self c rest))]
    rw [ih (fun x hx => h x (List.mem_cons_of_mem c hx))]

theorem moveGhostCond_mark {α : Type} [LinearOrderedField α]
    (tp tp' : α) (ntl ptl ntl' ptl' : ℕ) (c : CmdB α) :
    moveGhostCond tp' ntl' ptl'
        (if bulletGhostCond tp ntl ptl c then
          { c with ghosted_timelines := insertTl c.ghosted_timelines ntl }
          else c) ↔ moveGhostCond tp' ntl' ptl' c := by
  by_cases h : bulletGhostCond tp ntl ptl c
  · rw [if_pos h]
    unfold moveGhostCond
    constructor
    · intro hm
      exact absurd hm.1 (by rw [h.1]; intro hc; exact CmdType.noConfusion hc)
    · intro hm
      exact absurd hm.1 (by rw [h.1] at hm ⊢; intro hc; exact CmdType.noConfusion hc)
  · rw [if_neg h]

/-! ## Field-preservation lemmas for the per-frame passes -/

theorem pm_fields {α : Type} [LinearOrderedField α] (s : BState α)
    (tp : α) (a b : ℕ) :
    (prune_future_player_moves s tp a b).1.current_timeline_id =
        s.current_timeline_id ∧
    (prune_future_player_moves s tp a b).1.next_timeline_id =
        s.next_timeline_id ∧
    (prune_future_player_moves s tp a b).1.rewind_charges =
        s.rewind_charges ∧
    (prune_future_player_moves s tp a b).1.player_local_time =
        s.player_local_time ∧
    (prune_future_player_moves s tp a b).1.global_time = s.global_time ∧
    (prune_future_player_moves s tp a b).1.player_path = s.player_path ∧
    (prune_future_player_moves s tp a b).1.player_pos = s.player_pos ∧
    (prune_future_player_moves s tp a b).1.player_command_queue =
        s.player_command_queue := by
  simp only [prune_future_player_moves]
  split <;> exact ⟨rfl, rfl, rfl, rfl, rfl, rfl, rfl, rfl⟩

theorem pm_entities_mono {α : Type} [LinearOrderedField α] (s : BState α)
    (tp : α) (a b : ℕ) :
    ∃ l, (prune_future_player_moves s tp a b).1.entities = s.entities ++ l := by
  simp only [prune_future_player_moves]
  split
  · exact ⟨[], (List.append_nil _).symm⟩
  · exact ⟨_, rfl⟩

theorem pm_true_entities {α : Type} [LinearOrderedField α] (s : BState α)
    (tp : α) (a b : ℕ)
    (h : (prune_future_player_moves s tp a b).2 = true) :
    (prune_future_player_moves s tp a b).1.entities =
      s.entities ++
        [EntityB.ghostPlayer (pruneMovesGo tp a b s.permanent_command_log).2 a] := by
  simp only [prune_future_player_moves] at h ⊢
  split at h
  · exact absurd h (by simp)
  · split
    · rename_i h1 h2
      exact absurd h2 (by simp [h1])
    · rfl

theorem pm_nomatch {α : Type} [LinearOrderedField α] (s : BState α)
    (tp : α) (a b : ℕ)
    (h : ∀ c ∈ s.permanent_command_log, ¬ moveGhostCond tp a b c) :
    prune_future_player_moves s tp a b = (s, false) := by
  simp only [prune_future_player_moves]
  rw [pruneMovesGo_nomatch tp a b s.permanent_command_log h]
  rfl

theorem pb_nomatch {α : Type} [LinearOrderedField α] (s : BState α)
    (tp : α) (a b : ℕ)
    (h : ∀ c ∈ s.permanent_command_log, ¬ bulletGhostCond tp a b c) :
    prune_future_bullet_spawns s tp a b = (s, false) := by
  simp only [prune_future_bullet_spawns]
  rw [pruneBulletsGo_nomatch tp a b s.permanent_command_log s.entities
    s.global_commands s.active_timelines false h]

theorem pm_flag {α : Type} [LinearOrderedField α] (s : BState α)
    (tp : α) (a b : ℕ) :
    (prune_future_player_moves s tp a b).2 = true ↔
      ∃ c ∈ s.permanent_command_log, moveGhostCond tp a b c := by
  simp only [prune_future_player_moves]
  split
  · rename_i hempty
    simp only [Bool.false_eq_true, false_iff]
    rintro ⟨c, hc, hmc⟩
    rw [pruneMovesGo_snd] at hempty
    rw [List.map_eq_nil_iff, List.filter_eq_nil_iff] at hempty
    exact hempty c hc (by simpa using hmc)
  · rename_i hne
    simp only [true_iff]
    by_contra hno
    push_neg at hno
    apply hne
    rw [pruneMovesGo_snd]
    rw [List.map_eq_nil_iff, List.filter_eq_nil_iff]
    intro c hc
    simp only [decide_eq_true_eq]
    exact hno c hc

theorem branchEval_commit {α : Type} [LinearOrderedField α] (s : BState α)
    (h : ((prune_future_bullet_spawns s s.player_local_time
        s.next_timeline_id s.current_timeline_id).2 ||
      (prune_future_player_moves (prune_future_bullet_spawns s
          s.player_local_time s.next_timeline_id s.current_timeline_id).1
        s.player_local_time s.next_timeline_id s.current_timeline_id).2)
        = true) :
    (branchEval s).current_timeline_id = s.next_timeline_id ∧
    (branchEval s).next_timeline_id = s.next_timeline_id + 1 ∧
    (branchEval s).rewind_charges = s.rewind_charges - 1 ∧
    (branchEval s).entities =
      (prune_future_player_moves (prune_future_bullet_spawns s
          s.player_local_time s.next_timeline_id s.current_timeline_id).1
        s.player_local_time s.next_timeline_id s.current_timeline_id).1.entities := by
  simp only [branchEval]
  rw [if_pos h]
  split
  · refine ⟨rfl, ?_, ?_, rfl⟩
    · show (prune_future_player_moves _ _ _ _).1.next_timeline_id + 1 = _
      rw [(pm_fields _ _ _ _).2.1]
      rfl
    · show (prune_future_player_moves _ _ _ _).1.rewind_charges - 1 = _
      rw [(pm_fields _ _ _ _).2.2.1]
      rfl
  · refine ⟨rfl, ?_, ?_, rfl⟩
    · show (prune_future_player_moves _ _ _ _).1.next_timeline_id + 1 = _
      rw [(pm_fields _ _ _ _).2.1]
      rfl
    · show (prune_future_player_moves _ _ _ _).1.rewind_charges - 1 = _
      rw [(pm_fields _ _ _ _).2.2.1]
      rfl

/-- C1: with the branch trigger satisfied (was rewinding, now not, a charge
available), the candidate timeline is committed — `current_timeline_id`
set to the candidate, `next_timeline_id` incremented by one, exactly one
charge spent — if and only if the evaluation creates at least one ghost
from the candidate; with zero ghosts the whole state (counters, charges,
active-timeline bookkeeping included) is exactly as before.  The
hypotheses `hfresh`/`hnogh` say the candidate id is fresh, which every
reachable state satisfies (ids below `next_timeline_id` are the only ones
ever registered). -/
theorem C1_branch_atomicity {α : Type} [LinearOrderedField α] (s : BState α)
    (hch : 0 < s.rewind_charges)
    (hfresh : ∀ p ∈ s.active_timelines, p.1 ≠ s.next_timeline_id)
    (hnogh : ∀ e ∈ s.entities, ghostTid e ≠ some s.next_timeline_id) :
    (ghostsWouldBeCreated s ↔
      ((branchBlock s true false).current_timeline_id = s.next_timeline_id ∧
        (branchBlock s true false).next_timeline_id = s.next_timeline_id + 1 ∧
        (branchBlock s true false).rewind_charges = s.rewind_charges - 1)) ∧
    (ghostsWouldBeCreated s ↔
      ∃ e ∈ (branchBlock s true false).entities,
        ghostTid e = some s.next_timeline_id) ∧
    (¬ ghostsWouldBeCreated s → branchBlock s true false = s) := by
  have hgate : branchBlock s true false = branchEval s := by
    unfold branchBlock
    rw [if_pos ⟨rfl, rfl, hch⟩]
  have f1 : (prune_future_bullet_spawns s s.player_local_time
      s.next_timeline_id s.current_timeline_id).2 =
      s.permanent_command_log.any (fun c =>
        decide (bulletGhostCond s.player_local_time s.next_timeline_id
          s.current_timeline_id c)) := by
    simp only [prune_future_bullet_spawns]
    rw [pruneBulletsGo_flag]
    simp
  have f2 : (prune_future_bullet_spawns s s.player_local_time
      s.next_timeline_id s.current_timeline_id).1.permanent_command_log =
      s.permanent_command_log.map (fun c =>
        if bulletGhostCond s.player_local_time s.next_timeline_id
            s.current_timeline_id c then
          { c with ghosted_timelines :=
              insertTl c.ghosted_timelines s.next_timeline_id }
        else c) := by
    simp only [prune_future_bullet_spawns]
    rw [pruneBulletsGo_log]
  have f3 : (prune_future_bullet_spawns s s.player_local_time
      s.next_timeline_id s.current_timeline_id).1.entities =
      s.entities ++ (s.permanent_command_log.filter (fun c =>
        decide (bulletGhostCond s.player_local_time s.next_timeline_id
          s.current_timeline_id c))).map
            (fun c => mkPruneGhost c s.next_timeline_id) := by
    simp only [prune_future_bullet_spawns]
    rw [pruneBulletsGo_entities]
  have f6 : (∃ c ∈ (prune_future_bullet_spawns s s.player_local_time
        s.next_timeline_id s.current_timeline_id).1.permanent_command_log,
        moveGhostCond s.player_local_time s.next_timeline_id
          s.current_timeline_id c) ↔
      (∃ c ∈ s.permanent_command_log,
        moveGhostCond s.player_local_time s.next_timeline_id
          s.current_timeline_id c) := by
    rw [f2]
    constructor
    · rintro ⟨c, hc, hmc⟩
      rcases List.mem_map.1 hc with ⟨c0, hc0, rfl⟩
      exact ⟨c0, hc0, (moveGhostCond_mark _ _ _ _ _ _ c0).1 hmc⟩
    · rintro ⟨c, hc, hmc⟩
      exact ⟨_, List.mem_map_of_mem _ hc,
        (moveGhostCond_mark _ _ _ _ _ _ c).2 hmc⟩
  have key3 : ¬ ghostsWouldBeCreated s → branchBlock s true false = s := by
    intro hno
    rw [hgate]
    unfold ghostsWouldBeCreated at hno
    push_neg at hno
    obtain ⟨hnb, hnm⟩ := hno
    simp only [branchEval]
    rw [pb_nomatch s _ _ _ hnb]
    dsimp only
    rw [pm_nomatch s _ _ _ hnm]
    dsimp only
    rw [if_neg (by simp : ¬ ((false || false) = true))]
    have hdd : ddel s.active_timelines s.next_timeline_id =
        s.active_timelines := by
      unfold ddel
      apply List.filter_eq_self.2
      intro p hp
      exact decide_eq_true (hfresh p hp)
    rw [hdd]
  have hflag : ghostsWouldBeCreated s →
      ((prune_future_bullet_spawns s s.player_local_time
          s.next_timeline_id s.current_timeline_id).2 ||
        (prune_future_player_moves (prune_future_bullet_spawns s
            s.player_local_time s.next_timeline_id s.current_timeline_id).1
          s.player_local_time s.next_timeline_id s.current_timeline_id).2)
          = true := by
    intro H
    rcases H with ⟨c, hc, hbc⟩ | hm
    · rw [Bool.or_eq_true]
      left
      rw [f1]
      exact List.any_eq_true.2 ⟨c, hc, decide_eq_true hbc⟩
    · rw [Bool.or_eq_true]
      right
      exact (pm_flag _ _ _ _).2 (f6.2 hm)
  refine ⟨⟨?_, ?_⟩, ⟨?_, ?_⟩, key3⟩
  · intro H
    rw [hgate]
    obtain ⟨h1, h2, h3, _⟩ := branchEval_commit s (hflag H)
    exact ⟨h1, h2, h3⟩
  · rintro ⟨_, _, h3⟩
    by_contra hno
    rw [key3 hno] at h3
    omega
  · intro H
    rw [hgate]
    have hcommit := branchEval_commit s (hflag H)
    rw [hcommit.2.2.2]
    rcases pm_entities_mono (prune_future_bullet_spawns s s.player_local_time
        s.next_timeline_id s.current_timeline_id).1 s.player_local_time
        s.next_timeline_id s.current_timeline_id with ⟨l, hl⟩
    rcases H with ⟨c, hc, hbc⟩ | hm
    · refine ⟨mkPruneGhost c s.next_timeline_id, ?_, rfl⟩
      rw [hl, f3]
      apply List.mem_append_left
      apply List.mem_append_right
      exact List.mem_map_of_mem _
        (List.mem_filter.2 ⟨hc, decide_eq_true hbc⟩)
    · have hm2 : (prune_future_player_moves (prune_future_bullet_spawns s
          s.player_local_time s.next_timeline_id s.current_timeline_id).1
          s.player_local_time s.next_timeline_id s.current_timeline_id).2
          = true := (pm_flag _ _ _ _).2 (f6.2 hm)
      rw [pm_true_entities _ _ _ _ hm2]
      refine ⟨EntityB.ghostPlayer
        (pruneMovesGo s.player_local_time s.next_timeline_id
          s.current_timeline_id (prune_future_bullet_spawns s
            s.player_local_time s.next_timeline_id
            s.current_timeline_id).1.permanent_command_log).2
        s.next_timeline_id, ?_, rfl⟩
      apply List.mem_append_right
      exact List.mem_singleton_self _
  · rintro ⟨e, he, hetid⟩
    by_contra hno
    rw [key3 hno] at he
    exact hnogh e he hetid

/-- C1 witness: the branch evaluation at a concrete state holding one
future move command of the current timeline. -/
theorem C1_witness :
    (0 : ℤ) < c1state.rewind_charges ∧
    (∀ p ∈ c1state.active_timelines, p.1 ≠ c1state.next_timeline_id) ∧
    (∀ e ∈ c1state.entities, ghostTid e ≠ some c1state.next_timeline_id) ∧
    ((ghostsWouldBeCreated c1state ↔
      ((branchBlock c1state true false).current_timeline_id =
          c1state.next_timeline_id ∧
        (branchBlock c1state true false).next_timeline_id =
          c1state.next_timeline_id + 1 ∧
        (branchBlock c1state true false).rewind_charges =
          c1state.rewind_charges - 1)) ∧
    (ghostsWouldBeCreated c1state ↔
      ∃ e ∈ (branchBlock c1state true false).entities,
        ghostTid e = some c1state.next_timeline_id) ∧
    (¬ ghostsWouldBeCreated c1state → branchBlock c1state true false = c1state)) :=
  ⟨by decide, by decide, by decide,
    C1_branch_atomicity c1state (by decide) (by decide) (by decide)⟩

/-! ## Charge-tracking lemmas for the per-frame passes -/

theorem branchEval_charges_cases {α : Type} [LinearOrderedField α]
    (s : BState α) :
    (branchEval s).rewind_charges = s.rewind_charges - 1 ∨
    (branchEval s).rewind_charges = s.rewind_charges := by
  simp only [branchEval]
  split
  · left
    split
    · show (prune_future_player_moves _ _ _ _).1.rewind_charges - 1 = _
      rw [(pm_fields _ _ _ _).2.2.1]
      rfl
    · show (prune_future_player_moves _ _ _ _).1.rewind_charges - 1 = _
      rw [(pm_fields _ _ _ _).2.2.1]
      rfl
  · right
    show (prune_future_player_moves _ _ _ _).1.rewind_charges = _
    rw [(pm_fields _ _ _ _).2.2.1]
    rfl

theorem retireAt_charges {α : Type} [LinearOrderedField α]
    (s : BState α) (e : EntityB α) (et : α) (tid : ℕ) :
    (retireAt s e et tid).rewind_charges = s.rewind_charges ∨
    (retireAt s e et tid).rewind_charges =
      min (s.rewind_charges + 1) MAX_REWINDS := by
  unfold retireAt
  split
  · split
    · exact Or.inr rfl
    · exact Or.inl rfl
  · exact Or.inl rfl

theorem retireGhost_charges {α : Type} [LinearOrderedField α]
    (s : BState α) (e : EntityB α) :
    (retireGhost s e).rewind_charges = s.rewind_charges ∨
    (retireGhost s e).rewind_charges =
      min (s.rewind_charges + 1) MAX_REWINDS := by
  cases e with
  | player => exact Or.inl rfl
  | timer => exact Or.inl rfl
  | bullet p v i ml => exact Or.inl rfl
  | ghostBullet sp p v ml tid r =>
    exact retireAt_charges s (EntityB.ghostBullet sp p v ml tid r) (sp + ml) tid
  | ghostPlayer path tid =>
    cases hpl : path.getLast? with
    | none =>
      have hred : retireGhost s (EntityB.ghostPlayer path tid) = s := by
        show (match path.getLast? with
          | some lastStep =>
            retireAt s (EntityB.ghostPlayer path tid) lastStep.1 tid
          | none => s) = s
        rw [hpl]
      rw [hred]
      exact Or.inl rfl
    | some lastStep =>
      have hred : retireGhost s (EntityB.ghostPlayer path tid) =
          retireAt s (EntityB.ghostPlayer path tid) lastStep.1 tid := by
        show (match path.getLast? with
          | some lastStep =>
            retireAt s (EntityB.ghostPlayer path tid) lastStep.1 tid
          | none => s) = _
        rw [hpl]
      rw [hred]
      exact retireAt_charges s (EntityB.ghostPlayer path tid) lastStep.1 tid

theorem foldl_retireGhost_bounds {α : Type} [LinearOrderedField α] :
    ∀ (l : List (EntityB α)) (s : BState α),
      0 ≤ s.rewind_charges → s.rewind_charges ≤ MAX_REWINDS →
      0 ≤ (l.foldl retireGhost s).rewind_charges ∧
        (l.foldl retireGhost s).rewind_charges ≤ MAX_REWINDS := by
  intro l
  induction l with
  | nil =>
    intro s h0 h1
    exact ⟨h0, h1⟩
  | cons e rest ih =>
    intro s h0 h1
    simp only [List.foldl_cons]
    rcases retireGhost_charges s e with h | h
    · exact ih _ (by rw [h]; exact h0) (by rw [h]; exact h1)
    · refine ih _ ?_ ?_
      · rw [h]
        exact le_min (by omega) (by norm_num [MAX_REWINDS])
      · rw [h]
        exact min_le_right _ _

theorem reconcilePlayerTl_charges {α : Type} [LinearOrderedField α]
    (s : BState α) (tid : ℕ) :
    (reconcilePlayerTl s tid).rewind_charges = s.rewind_charges := by
  simp only [reconcilePlayerTl]
  split
  · split
    · split
      · rfl
      · rfl
    · rfl
  · rfl

theorem reconcilePlayers_charges {α : Type} [LinearOrderedField α] :
    ∀ (l : List ℕ) (s : BState α),
      (l.foldl reconcilePlayerTl s).rewind_charges = s.rewind_charges := by
  intro l
  induction l with
  | nil => intro s; rfl
  | cons tid rest ih =>
    intro s
    simp only [List.foldl_cons]
    rw [ih, reconcilePlayerTl_charges]

theorem reconcileBulletTl_charges {α : Type} [LinearOrderedField α]
    (c : CmdB α) (s : BState α) (tid : ℕ) :
    (reconcileBulletTl c s tid).rewind_charges = s.rewind_charges := by
  simp only [reconcileBulletTl]
  split
  · split
    · rfl
    · rfl
  · rfl

theorem reconcileBulletFold_charges {α : Type} [LinearOrderedField α]
    (c : CmdB α) :
    ∀ (l : List ℕ) (s : BState α),
      (l.foldl (reconcileBulletTl c) s).rewind_charges = s.rewind_charges := by
  intro l
  induction l with
  | nil => intro s; rfl
  | cons tid rest ih =>
    intro s
    simp only [List.foldl_cons]
    rw [ih, reconcileBulletTl_charges]

theorem reconcileBullets_charges {α : Type} [LinearOrderedField α] :
    ∀ (log : List (CmdB α)) (s : BState α),
      (log.foldl (fun s' c =>
        if c.ctype = CmdType.shoot then
          c.ghosted_timelines.foldl (reconcileBulletTl c) s'
        else s') s).rewind_charges = s.rewind_charges := by
  intro log
  induction log with
  | nil => intro s; rfl
  | cons c rest ih =>
    intro s
    simp only [List.foldl_cons]
    rw [ih]
    split
    · rw [reconcileBulletFold_charges]
    · rfl

theorem retireAt_refund {α : Type} [LinearOrderedField α]
    (s : BState α) (e : EntityB α) (et : α) (tid : ℕ)
    (hg : et < s.global_time) (h1 : dget s.active_timelines tid = 1) :
    (retireAt s e et tid).rewind_charges =
      min (s.rewind_charges + 1) MAX_REWINDS ∧
    ∀ p ∈ (retireAt s e et tid).active_timelines, p.1 ≠ tid := by
  have hd : dget (dbump s.active_timelines tid (-1)) tid = 0 := by
    rw [dget_dbump_self, h1]
    norm_num
  unfold retireAt
  rw [if_pos hg, if_pos hd]
  refine ⟨rfl, fun p hp => ?_⟩
  have hm := List.mem_filter.1 hp
  simpa using hm.2

/-! ## C2: charge bounds, retirement refund, and the conservation failure -/

/-- C2 (amended): the charge pool stays within `[0, MAX_REWINDS]` across the
per-frame bookkeeping passes, and a retirement whose active-ghost counter
reaches exactly zero deletes the timeline's entry and refunds exactly one
charge clamped at `MAX_REWINDS`.  The original claim's conservation bound
`charges + #active-timelines ≤ MAX_REWINDS` does not hold — see the
counterexample. -/
theorem C2_amended_charge_bounds {α : Type} [LinearOrderedField α]
    (s : BState α) (w r : Bool)
    (h0 : 0 ≤ s.rewind_charges) (h1 : s.rewind_charges ≤ MAX_REWINDS) :
    (0 ≤ (frameBookkeeping s w r).rewind_charges ∧
      (frameBookkeeping s w r).rewind_charges ≤ MAX_REWINDS) ∧
    (∀ (e : EntityB α) (et : α) (tid : ℕ),
      ghostEndTime e = some et → et < s.global_time →
      ghostTid e = some tid → dget s.active_timelines tid = 1 →
      (retireGhost s e).rewind_charges =
        min (s.rewind_charges + 1) MAX_REWINDS ∧
      (∀ p ∈ (retireGhost s e).active_timelines, p.1 ≠ tid)) := by
  constructor
  · have hb : 0 ≤ (branchBlock s w r).rewind_charges ∧
        (branchBlock s w r).rewind_charges ≤ MAX_REWINDS := by
      unfold branchBlock
      split
      · rename_i hgate
        rcases branchEval_charges_cases s with h | h
        · rw [h]
          exact ⟨by omega, by omega⟩
        · rw [h]
          exact ⟨h0, h1⟩
      · exact ⟨h0, h1⟩
    have hr : 0 ≤ (retirementLoop (branchBlock s w r)).rewind_charges ∧
        (retirementLoop (branchBlock s w r)).rewind_charges ≤ MAX_REWINDS :=
      foldl_retireGhost_bounds _ _ hb.1 hb.2
    have hp : (reconcilePlayers (retirementLoop (branchBlock s w r))).rewind_charges
        = (retirementLoop (branchBlock s w r)).rewind_charges :=
      reconcilePlayers_charges _ _
    have hq : (frameBookkeeping s w r).rewind_charges =
        (reconcilePlayers (retirementLoop (branchBlock s w r))).rewind_charges := by
      unfold frameBookkeeping reconcileBullets
      rw [reconcileBullets_charges]
    rw [hq, hp]
    exact hr
  · intro e et tid he1 he2 he3 he4
    cases e with
    | player => exact absurd he1 (by simp [ghostEndTime])
    | timer => exact absurd he1 (by simp [ghostEndTime])
    | bullet p v i ml => exact absurd he1 (by simp [ghostEndTime])
    | ghostBullet sp p v ml tid' r =>
      simp only [ghostEndTime, Option.some.injEq] at he1
      simp only [ghostTid, Option.some.injEq] at he3
      have hred : retireGhost s (EntityB.ghostBullet sp p v ml tid' r) =
          retireAt s (EntityB.ghostBullet sp p v ml tid' r) (sp + ml) tid' := rfl
      rw [hred, he1, he3]
      exact retireAt_refund s _ et tid he2 he4
    | ghostPlayer path tid' =>
      simp only [ghostEndTime] at he1
      rcases Option.map_eq_some'.1 he1 with ⟨pr, hpr, hpr1⟩
      simp only [ghostTid, Option.some.injEq] at he3
      have hred : retireGhost s (EntityB.ghostPlayer path tid') =
          retireAt s (EntityB.ghostPlayer path tid') pr.1 tid' := by
        show (match path.getLast? with
          | some lastStep =>
            retireAt s (EntityB.ghostPlayer path tid') lastStep.1 tid'
          | none => s) = _
        rw [hpr]
      rw [hred, hpr1, he3]
      exact retireAt_refund s _ et tid he2 he4

/-- C2 witness: the amended theorem applied at the concrete state
`c2state`. -/
theorem C2_witness :
    (0 : ℤ) ≤ c2state.rewind_charges ∧
    c2state.rewind_charges ≤ MAX_REWINDS ∧
    ((0 ≤ (frameBookkeeping c2state false false).rewind_charges ∧
      (frameBookkeeping c2state false false).rewind_charges ≤ MAX_REWINDS) ∧
    (∀ (e : EntityB ℚ) (et : ℚ) (tid : ℕ),
      ghostEndTime e = some et → et < c2state.global_time →
      ghostTid e = some tid → dget c2state.active_timelines tid = 1 →
      (retireGhost c2state e).rewind_charges =
        min (c2state.rewind_charges + 1) MAX_REWINDS ∧
      (∀ p ∈ (retireGhost c2state e).active_timelines, p.1 ≠ tid))) :=
  ⟨by decide, by decide,
    C2_amended_charge_bounds c2state false false (by decide) (by decide)⟩

/-- C2 (counterexample): the conservation bound `charges +
#{committed timelines with active ghosts} ≤ MAX_REWINDS` fails on a
reachable state.  In `c2state` a committed timeline's ghost has fully
retired (refunding the charge back to `MAX_REWINDS`) and the actor has
rewound back inside its window; the very next reconciliation pass respawns
the ghost without any charge being spent, giving `charges = 3` with one
committed timeline active again, i.e. `3 + 1 > 3`. -/
theorem C2_counterexample :
    chargeInvariant c2state ∧
      ¬ chargeInvariant (frameBookkeeping c2state false false) := by
  have h1 : reconcilePlayers (retirementLoop (branchBlock c2state false false))
      = c2state := rfl
  have hwin : c2cmd.scheduled_time ≤ c2state.global_time ∧
      c2state.global_time < reconWindowEnd c2cmd := by
    constructor <;> norm_num [c2cmd, c2state, reconWindowEnd]
  have hne : ¬ (c2state.entities.any
      (isGhostBulletCmdTid c2cmd.cid 1) = true) := by decide
  have h2 : reconcileBulletTl c2cmd c2state 1 =
      { c2state with
          entities := c2state.entities ++ [mkReconGhost c2cmd 1] } := by
    unfold reconcileBulletTl
    rw [if_pos hwin, if_neg hne]
  have h3 : frameBookkeeping c2state false false =
      { c2state with
          entities := c2state.entities ++ [mkReconGhost c2cmd 1] } := by
    show reconcileBullets (reconcilePlayers (retirementLoop
      (branchBlock c2state false false))) = _
    rw [h1]
    have h4 : reconcileBullets c2state = reconcileBulletTl c2cmd c2state 1 := rfl
    rw [h4, h2]
  refine ⟨by decide, ?_⟩
  rw [h3]
  decide

/-! ## C3: ghost deduplication failure across spawn paths -/

/-- C3: at the state just after a branch commit materialized the ghost of
`c2cmd` for timeline 1 (with no `cmd_ref` attribute), and with the global
time inside that command's window, the one-shot reconciliation pass spawns a
second ghost bullet for the same (command, timeline id) pair — its dedup
check looks only for `cmd_ref`-tagged ghosts, which the branch-commit ghost
is not.  The world then holds two concurrent ghost bullets of the same
originating command and timeline id, contradicting both the claim and the
source's own "Deduplicate by (cmd, tid)" comment. -/
theorem C3_duplicate_ghost_bullets :
    ghostBulletsOfCmdTid c2cmd 1 c3state.entities = 1 ∧
      ghostBulletsOfCmdTid c2cmd 1 (reconcileBullets c3state).entities = 2 := by
  have hwin : c2cmd.scheduled_time ≤ c3state.global_time ∧
      c3state.global_time < reconWindowEnd c2cmd := by
    constructor <;> norm_num [c2cmd, c3state, reconWindowEnd]
  have hne : ¬ (c3state.entities.any
      (isGhostBulletCmdTid c2cmd.cid 1) = true) := by decide
  have h2 : reconcileBulletTl c2cmd c3state 1 =
      { c3state with
          entities := c3state.entities ++ [mkReconGhost c2cmd 1] } := by
    unfold reconcileBulletTl
    rw [if_pos hwin, if_neg hne]
  have h4 : reconcileBullets c3state = reconcileBulletTl c2cmd c3state 1 := rfl
  constructor
  · simp [ghostBulletsOfCmdTid, c3state, mkPruneGhost, List.countP_cons]
  · rw [h4, h2]
    simp [ghostBulletsOfCmdTid, c3state, mkPruneGhost, mkReconGhost,
      List.countP_append, List.countP_cons]
